import Mathlib

/-
Verification of the x402 client helper library:
payment-payload codec (src/app/utils/paymentUtils.js),
JSON-safety sanitizer and facilitator client (src/app/facilitator.js).

The JavaScript code is shallowly embedded: JSON-like runtime values become
inductive trees, JS objects with reference identity (needed by the
sanitizer's cycle detection) become addresses into an explicit heap, and
fallible code returns Except.  All definitions are executable.
-/

/-- JSON-like JavaScript runtime values as the payment codec sees them:
the primitives JSON.parse can produce plus arbitrary-precision bigints.
JS numbers are modelled as integers (no claim exercises fractional or
non-finite numbers). -/
inductive PVal where
  | null
  | bool (b : Bool)
  | num (n : Int)
  | str (s : String)
  | bigint (i : Int)
  | obj (fields : List (String × PVal))
  | arr (elems : List PVal)

/-- JS property read on a field list: first binding of the key wins
(JS objects have unique keys; assoc-list order models insertion order). -/
def getField {α : Type} : List (String × α) → String → Option α
  | [], _ => none
  | (k, v) :: r, key => if k = key then some v else getField r key

/-- JS object-literal override, as in an object spread followed by an
explicit key: replaces the first binding of the key in place, else
appends the binding at the end (JS insertion-order semantics). -/
def setField {α : Type} : List (String × α) → String → α → List (String × α)
  | [], key, x => [(key, x)]
  | (k, v) :: r, key, x =>
      if k = key then (k, x) :: r else (k, v) :: setField r key x

theorem getField_setField_self {α : Type} (l : List (String × α)) (k : String) (x : α) :
    getField (setField l k x) k = some x := by
  induction l with
  | nil => simp [getField, setField]
  | cons h t ih =>
      obtain ⟨k', v⟩ := h
      by_cases hk : k' = k <;> simp [getField, setField, hk, ih]

theorem getField_setField_ne {α : Type} (l : List (String × α)) (k k' : String) (x : α)
    (h : k ≠ k') : getField (setField l k x) k' = getField l k' := by
  induction l with
  | nil => simp [getField, setField, h]
  | cons hd t ih =>
      obtain ⟨k₀, v⟩ := hd
      by_cases hk : k₀ = k
      · subst hk
        simp [getField, setField, h]
      · simp only [setField, if_neg hk, getField]
        by_cases hk' : k₀ = k' <;> simp [hk', ih]

theorem setField_setField_same {α : Type} (l : List (String × α)) (k : String) (x y : α) :
    setField (setField l k x) k y = setField l k y := by
  induction l with
  | nil => simp [setField]
  | cons hd t ih =>
      obtain ⟨k₀, v⟩ := hd
      by_cases hk : k₀ = k <;> simp [setField, hk, ih]

theorem setField_getField_self {α : Type} (l : List (String × α)) (k : String) (x : α)
    (h : getField l k = some x) : setField l k x = l := by
  induction l with
  | nil => simp [getField] at h
  | cons hd t ih =>
      obtain ⟨k₀, v⟩ := hd
      by_cases hk : k₀ = k
      · subst hk
        simp [getField] at h
        simp [setField, h]
      · simp [getField, hk] at h
        simp [setField, hk, ih h]

theorem getField_isSome_setField {α : Type} (l : List (String × α)) (k k' : String) (x : α)
    (h : (getField l k').isSome) : (getField (setField l k x) k').isSome := by
  by_cases hk : k = k'
  · subst hk
    simp [getField_setField_self]
  · rwa [getField_setField_ne _ _ _ _ hk]

theorem setField_comm {α : Type} (l : List (String × α)) (k₁ k₂ : String) (x y : α)
    (hne : k₁ ≠ k₂) (hmem : (getField l k₁).isSome) :
    setField (setField l k₁ x) k₂ y = setField (setField l k₂ y) k₁ x := by
  induction l with
  | nil => simp [getField] at hmem
  | cons hd t ih =>
      obtain ⟨k₀, v⟩ := hd
      by_cases h1 : k₀ = k₁
      · subst h1
        have h2 : ¬ (k₀ = k₂) := hne
        simp [setField, h2, if_pos rfl]
      · by_cases h2 : k₀ = k₂
        · subst h2
          simp [setField, h1, if_pos rfl]
        · simp [getField, h1] at hmem
          simp [setField, h1, h2, ih hmem]

/-! ### Decimal printing and JS StringToBigInt -/

/-- Numeric value of an ASCII decimal digit, via code points. -/
def digitVal? (c : Char) : Option Nat :=
  if 48 ≤ c.toNat ∧ c.toNat ≤ 57 then some (c.toNat - 48) else none

/-- The ASCII character of a decimal digit (inputs above nine never occur). -/
def digitChar : Nat → Char
  | 0 => '0' | 1 => '1' | 2 => '2' | 3 => '3' | 4 => '4'
  | 5 => '5' | 6 => '6' | 7 => '7' | 8 => '8' | _ => '9'

/-- Fuelled digit expansion of a natural number, most significant first;
fuel at least n + 1 always suffices.  Models both Number.prototype.toString
and BigInt.prototype.toString (base 10). -/
def natDigitsAux : Nat → Nat → List Char
  | 0, _ => []
  | f + 1, n =>
      if n < 10 then [digitChar n]
      else natDigitsAux f (n / 10) ++ [digitChar (n % 10)]

/-- Base-10 string of a natural number. -/
def natToDec (n : Nat) : String := String.mk (natDigitsAux (n + 1) n)

/-- Base-10 string of an integer, as JS BigInt/Number toString renders it. -/
def intToDec (i : Int) : String :=
  if i < 0 then "-" ++ natToDec (-i).toNat else natToDec i.toNat

/-- Fold a digit list into a number given a per-character digit reader. -/
def parseIntDigits (valFn : Char → Option Nat) (base : Nat) : List Char → Nat → Option Nat
  | [], acc => some acc
  | c :: r, acc =>
      match valFn c with
      | some d => parseIntDigits valFn base r (acc * base + d)
      | none => none

/-- Hex digit reader (0-9, a-f, A-F). -/
def hexVal? (c : Char) : Option Nat :=
  if 48 ≤ c.toNat ∧ c.toNat ≤ 57 then some (c.toNat - 48)
  else if 97 ≤ c.toNat ∧ c.toNat ≤ 102 then some (c.toNat - 87)
  else if 65 ≤ c.toNat ∧ c.toNat ≤ 70 then some (c.toNat - 55)
  else none

/-- Octal digit reader. -/
def octVal? (c : Char) : Option Nat :=
  if 48 ≤ c.toNat ∧ c.toNat ≤ 55 then some (c.toNat - 48) else none

/-- Binary digit reader. -/
def binVal? (c : Char) : Option Nat :=
  if c.toNat = 48 ∨ c.toNat = 49 then some (c.toNat - 48) else none

/-- A nonempty all-digit run, as required after a radix prefix or a sign. -/
def parseRun (valFn : Char → Option Nat) (base : Nat) : List Char → Option Nat
  | [] => none
  | l => parseIntDigits valFn base l 0

/-- JS StrWhiteSpace, restricted to its ASCII members (TAB LF VT FF CR SP);
the Unicode space separators JS also trims are not exercised by any claim. -/
def isWsChar (c : Char) : Bool :=
  c.toNat = 9 ∨ c.toNat = 10 ∨ c.toNat = 11 ∨ c.toNat = 12 ∨ c.toNat = 13 ∨ c.toNat = 32

/-- Trim JS whitespace from both ends. -/
def trimWs (l : List Char) : List Char :=
  ((l.dropWhile isWsChar).reverse.dropWhile isWsChar).reverse

/-- Continuation of StringToBigInt after a leading zero: radix prefixes
0x/0o/0b (no sign allowed), else plain decimal including the zero. -/
def sbiZero : List Char → Option Int
  | [] => some 0
  | c₁ :: rest₁ =>
      if c₁ = 'x' ∨ c₁ = 'X' then (parseRun hexVal? 16 rest₁).map Int.ofNat
      else if c₁ = 'o' ∨ c₁ = 'O' then (parseRun octVal? 8 rest₁).map Int.ofNat
      else if c₁ = 'b' ∨ c₁ = 'B' then (parseRun binVal? 2 rest₁).map Int.ofNat
      else (parseIntDigits digitVal? 10 ('0' :: c₁ :: rest₁) 0).map Int.ofNat

/-- StringToBigInt on an already-trimmed character list. -/
def sbiCore : List Char → Option Int
  | [] => some 0
  | c :: rest =>
      if c = '+' then (parseRun digitVal? 10 rest).map Int.ofNat
      else if c = '-' then (parseRun digitVal? 10 rest).map (fun n => -(n : Int))
      else if c = '0' then sbiZero rest
      else (parseIntDigits digitVal? 10 (c :: rest) 0).map Int.ofNat

/-- ECMAScript StringToBigInt, the conversion performed by BigInt(string):
trims whitespace, maps the empty remainder to 0, accepts 0x/0o/0b radix
prefixes (no sign), else an optional sign followed by nonempty decimal
digits; anything else fails (BigInt throws a SyntaxError). -/
def stringToBigInt (s : String) : Option Int :=
  sbiCore (trimWs s.toList)

theorem digitChar_toNat {n : Nat} (h : n < 10) : (digitChar n).toNat = 48 + n := by
  interval_cases n <;> decide

theorem digitVal?_digitChar {n : Nat} (h : n < 10) : digitVal? (digitChar n) = some n := by
  interval_cases n <;> decide

theorem natDigitsAux_all_digits :
    ∀ f n, ∀ c ∈ natDigitsAux f n, 48 ≤ c.toNat ∧ c.toNat ≤ 57 := by
  intro f
  induction f with
  | zero => intro n c hc; simp [natDigitsAux] at hc
  | succ f ih =>
      intro n c hc
      by_cases h10 : n < 10
      · simp [natDigitsAux, h10] at hc
        subst hc
        rw [digitChar_toNat h10]
        omega
      · simp [natDigitsAux, h10] at hc
        rcases hc with hc | hc
        · exact ih (n / 10) c hc
        · subst hc
          rw [digitChar_toNat (Nat.mod_lt _ (by norm_num))]
          omega

theorem parseIntDigits_append (valFn : Char → Option Nat) (base : Nat)
    (l₁ l₂ : List Char) (acc : Nat) :
    parseIntDigits valFn base (l₁ ++ l₂) acc =
      (parseIntDigits valFn base l₁ acc).bind (parseIntDigits valFn base l₂) := by
  induction l₁ generalizing acc with
  | nil => simp [parseIntDigits]
  | cons c r ih =>
      simp only [List.cons_append, parseIntDigits]
      cases valFn c with
      | none => rfl
      | some d => simp [ih]

theorem parseIntDigits_natDigitsAux (f n acc : Nat) (h : n < f) :
    parseIntDigits digitVal? 10 (natDigitsAux f n) acc =
      some (acc * 10 ^ (natDigitsAux f n).length + n) := by
  induction f generalizing n acc with
  | zero => omega
  | succ f ih =>
      by_cases h10 : n < 10
      · simp [natDigitsAux, h10, parseIntDigits, digitVal?_digitChar h10]
      · have hdiv : n / 10 < f := by
          have h1 : n / 10 < n := Nat.div_lt_self (by omega) (by norm_num)
          omega
        have hmod : n % 10 < 10 := Nat.mod_lt _ (by norm_num)
        simp only [natDigitsAux, if_neg h10]
        rw [parseIntDigits_append, ih (n / 10) acc hdiv]
        simp only [Option.some_bind, parseIntDigits, digitVal?_digitChar hmod,
          List.length_append, List.length_cons, List.length_nil]
        congr 1
        calc (acc * 10 ^ (natDigitsAux f (n / 10)).length + n / 10) * 10 + n % 10
            = acc * (10 ^ (natDigitsAux f (n / 10)).length * 10) + (10 * (n / 10) + n % 10) := by
              ring
          _ = acc * 10 ^ ((natDigitsAux f (n / 10)).length + (0 + 1)) + n := by
              rw [Nat.div_add_mod, pow_succ]

theorem natDigitsAux_ne_nil (f n : Nat) (h : 0 < f) : natDigitsAux f n ≠ [] := by
  cases f with
  | zero => omega
  | succ f =>
      by_cases h10 : n < 10 <;> simp [natDigitsAux, h10]

theorem trimWs_of_no_ws (l : List Char) (h : ∀ c ∈ l, isWsChar c = false) :
    trimWs l = l := by
  have drop₁ : ∀ m : List Char, (∀ c ∈ m, isWsChar c = false) → m.dropWhile isWsChar = m := by
    intro m hm
    cases m with
    | nil => rfl
    | cons a r => simp [List.dropWhile, hm a (by simp)]
  rw [trimWs, drop₁ l h, drop₁ l.reverse (by intro c hc; exact h c (List.mem_reverse.mp hc)),
    List.reverse_reverse]

theorem stringToBigInt_natToDec (n : Nat) : stringToBigInt (natToDec n) = some (Int.ofNat n) := by
  have hts : (natToDec n).toList = natDigitsAux (n + 1) n := rfl
  have hdig := natDigitsAux_all_digits (n + 1) n
  have hnows : ∀ c ∈ natDigitsAux (n + 1) n, isWsChar c = false := by
    intro c hc
    have := hdig c hc
    simp only [isWsChar, decide_eq_false_iff_not]
    omega
  have htrim : trimWs (natToDec n).toList = natDigitsAux (n + 1) n := by
    rw [hts]; exact trimWs_of_no_ws _ hnows
  have hparse : parseIntDigits digitVal? 10 (natDigitsAux (n + 1) n) 0 = some n := by
    have := parseIntDigits_natDigitsAux (n + 1) n 0 (by omega)
    simpa using this
  rw [stringToBigInt, htrim]
  rcases hd : natDigitsAux (n + 1) n with _ | ⟨c₀, rest⟩
  · exact absurd hd (natDigitsAux_ne_nil (n + 1) n (by omega))
  · rw [hd] at hparse hdig
    have hc₀ : 48 ≤ c₀.toNat ∧ c₀.toNat ≤ 57 := hdig c₀ (by simp)
    have hplus : ¬ (c₀ = '+') := by
      intro he; rw [he] at hc₀; revert hc₀; decide
    have hminus : ¬ (c₀ = '-') := by
      intro he; rw [he] at hc₀; revert hc₀; decide
    rw [sbiCore, if_neg hplus, if_neg hminus]
    by_cases h0 : c₀ = '0'
    · rw [if_pos h0]
      rcases rest with _ | ⟨c₁, rest₁⟩
      · -- the rendered number is the single digit '0', so n = 0
        have hn0 : n = 0 := by
          by_cases h10 : n < 10
          · have hdc : digitChar n = c₀ := by
              have := hd
              simp [natDigitsAux, h10] at this
              exact this
            rw [h0] at hdc
            interval_cases n
            · rfl
            all_goals (exfalso; revert hdc; decide)
          · exfalso
            have hne : natDigitsAux (n + 1) n =
                natDigitsAux n (n / 10) ++ [digitChar (n % 10)] := by
              simp [natDigitsAux, h10]
            rw [hd] at hne
            have hnil : natDigitsAux n (n / 10) ≠ [] :=
              natDigitsAux_ne_nil n (n / 10) (by omega)
            rcases hx : natDigitsAux n (n / 10) with _ | ⟨a, b⟩
            · exact hnil hx
            · rw [hx] at hne
              simp at hne
        rw [hn0]
        rfl
      · have hc₁ : 48 ≤ c₁.toNat ∧ c₁.toNat ≤ 57 := hdig c₁ (by simp)
        have hx : ¬ (c₁ = 'x' ∨ c₁ = 'X') := by
          rintro (he | he) <;> rw [he] at hc₁ <;> revert hc₁ <;> decide
        have ho : ¬ (c₁ = 'o' ∨ c₁ = 'O') := by
          rintro (he | he) <;> rw [he] at hc₁ <;> revert hc₁ <;> decide
        have hb : ¬ (c₁ = 'b' ∨ c₁ = 'B') := by
          rintro (he | he) <;> rw [he] at hc₁ <;> revert hc₁ <;> decide
        rw [sbiZero, if_neg hx, if_neg ho, if_neg hb, ← h0, hparse]
        rfl
    · rw [if_neg h0, hparse]
      rfl

theorem stringToBigInt_intToDec {i : Int} (h : 0 ≤ i) :
    stringToBigInt (intToDec i) = some i := by
  rw [intToDec, if_neg (by omega)]
  rw [stringToBigInt_natToDec i.toNat]
  congr 1
  exact_mod_cast Int.toNat_of_nonneg h

/-! ### JS value semantics used by the codec -/

/-- JS truthiness (ToBoolean) on modelled values. -/
def truthy : PVal → Bool
  | .null => false
  | .bool b => b
  | .num n => decide (n ≠ 0)
  | .str s => decide (s ≠ "")
  | .bigint i => decide (i ≠ 0)
  | .obj _ => true
  | .arr _ => true

/-- Truthiness of a possibly-undefined value (undefined is falsy). -/
def truthyOpt : Option PVal → Bool
  | none => false
  | some v => truthy v

/-- Canonical array-index reading of a property key, as JS defines it:
the key must be exactly the decimal rendering of the index. -/
def parseIndex? (k : String) : Option Nat :=
  match parseIntDigits digitVal? 10 k.toList 0 with
  | some i => if natToDec i = k then some i else none
  | none => none

/-- Non-throwing JS property read; undefined is none.  Primitives other
than strings have none of the properties the modelled code reads. -/
def getProp : PVal → String → Option PVal
  | .obj fs, k => getField fs k
  | .arr es, k => (parseIndex? k).bind (fun i => es.get? i)
  | _, _ => none

/-- JS member access x.k, which throws on null (and nothing else here). -/
def memberAccess : PVal → String → Except String (Option PVal)
  | .null, k => .error ("TypeError: Cannot read properties of null reading " ++ k)
  | v, k => .ok (getProp v k)

/-- JS member access on a possibly-undefined base, throwing on undefined. -/
def accessOpt : Option PVal → String → Except String (Option PVal)
  | none, k => .error ("TypeError: Cannot read properties of undefined reading " ++ k)
  | some v, k => memberAccess v k

/-- Index-keyed field list for spreading arrays and strings. -/
def indexFields {α : Type} (es : List α) : List (String × α) :=
  es.enum.map (fun p => (natToDec p.1, p.2))

/-- JS object spread of a possibly-undefined value inside an object
literal: objects contribute their fields, arrays and strings their
indexed elements, every other value contributes nothing. -/
def spreadList : Option PVal → List (String × PVal)
  | some (.obj fs) => fs
  | some (.arr es) => indexFields es
  | some (.str s) => indexFields (s.toList.map (fun c => PVal.str (String.mk [c])))
  | _ => []

/-- JS String.prototype.startsWith. -/
def jsStartsWith (s p : String) : Bool := p.toList.isPrefixOf s.toList

mutual
/-- Rendering of one array element inside Array.prototype.toString:
null renders empty, otherwise the element's own string conversion. -/
def jsElemString : PVal → String
  | .null => ""
  | .bool b => if b then "true" else "false"
  | .num n => intToDec n
  | .str s => s
  | .bigint i => intToDec i
  | .obj _ => "[object Object]"
  | .arr es => jsJoinList es

/-- Array.prototype.toString: elements joined with commas. -/
def jsJoinList : List PVal → String
  | [] => ""
  | e :: r =>
      match r with
      | [] => jsElemString e
      | _ => jsElemString e ++ "," ++ jsJoinList r
end

/-- JS x.toString(): throws on null, renders every other modelled value. -/
def jsToString : PVal → Except String String
  | .null => .error "TypeError: Cannot read properties of null reading toString"
  | .bool b => .ok (if b then "true" else "false")
  | .num n => .ok (intToDec n)
  | .str s => .ok s
  | .bigint i => .ok (intToDec i)
  | .obj _ => .ok "[object Object]"
  | .arr es => .ok (jsJoinList es)

/-- JS x.toString() on a possibly-undefined receiver. -/
def jsToStringOpt : Option PVal → Except String String
  | none => .error "TypeError: Cannot read properties of undefined reading toString"
  | some v => jsToString v

/-- ECMAScript BigInt(x) on a possibly-undefined argument: undefined and
null throw TypeErrors, booleans and integral numbers convert numerically,
strings go through StringToBigInt (SyntaxError on failure), objects and
arrays are first converted to their primitive string form. -/
def jsBigInt : Option PVal → Except String Int
  | none => .error "TypeError: Cannot convert undefined to a BigInt"
  | some .null => .error "TypeError: Cannot convert null to a BigInt"
  | some (.bool b) => .ok (if b then 1 else 0)
  | some (.num n) => .ok n
  | some (.bigint i) => .ok i
  | some (.str s) =>
      match stringToBigInt s with
      | some i => .ok i
      | none => .error "SyntaxError: Cannot convert string to a BigInt"
  | some (.obj _) => .error "SyntaxError: Cannot convert string to a BigInt"
  | some (.arr es) =>
      match stringToBigInt (jsJoinList es) with
      | some i => .ok i
      | none => .error "SyntaxError: Cannot convert string to a BigInt"

/-! ### The payment codec (src/app/utils/paymentUtils.js) -/

/-- Error text of paymentUtils.js line 44. -/
def structMsg : String := "Invalid payment payload structure"

/-- Error text of paymentUtils.js line 57. -/
def authMsg : String := "Invalid authorization payload values"

/-- Error text of paymentUtils.js line 61. -/
def typeMsg : String := "Invalid payload type"

/-- typeof x === "object" on modelled values (null and arrays included). -/
def typeofIsObject : PVal → Bool
  | .null => true
  | .obj _ => true
  | .arr _ => true
  | _ => false

/-- typeof x === "bigint" on an optional property value. -/
def isBigintOpt : Option PVal → Bool
  | some (.bigint _) => true
  | _ => false

/-- typeof x === "string" on an optional property value. -/
def isStringOpt : Option PVal → Bool
  | some (.str _) => true
  | _ => false

/-- The discriminator test of paymentUtils.js lines 7 and 26: a strict
string comparison against the two authorization tags. -/
def isAuthTypeOpt : Option PVal → Bool
  | some (.str s) => s == "authorization" || s == "authorizationEip3009"
  | _ => false

/-- The authorization-variant checks of validatePaymentPayload
(paymentUtils.js lines 49-58), including the TypeError JS raises when a
truthy non-string signature has its startsWith method invoked. -/
def validateAuth (v pl : PVal) : Except String PVal :=
  match getProp pl "authorization" with
  | none => .error authMsg
  | some a =>
      if ¬ truthy a then .error authMsg
      else if ¬ isBigintOpt (getProp a "value") then .error authMsg
      else if ¬ isBigintOpt (getProp a "validAfter") then .error authMsg
      else if ¬ isBigintOpt (getProp a "validBefore") then .error authMsg
      else if ¬ isStringOpt (getProp a "nonce") then .error authMsg
      else if ¬ isStringOpt (getProp a "version") then .error authMsg
      else
        match getProp pl "signature" with
        | none => .error authMsg
        | some sg =>
            if ¬ truthy sg then .error authMsg
            else
              match sg with
              | .str s => if jsStartsWith s "0x" then .ok v else .error authMsg
              | _ => .error "TypeError: obj.payload.signature.startsWith is not a function"

/-- validatePaymentPayload (paymentUtils.js lines 38-64): the structural
guard, the switch on payload.type, and the authorization checks. -/
def validatePaymentPayload (v : PVal) : Except String PVal :=
  if ¬ truthy v then .error structMsg
  else if ¬ typeofIsObject v then .error structMsg
  else
    match getProp v "payload" with
    | none => .error structMsg
    | some pl =>
        if ¬ truthy pl then .error structMsg
        else if ¬ typeofIsObject pl then .error structMsg
        else if ¬ truthyOpt (getProp pl "type") then .error structMsg
        else
          match getProp pl "type" with
          | some (.str "authorization") => validateAuth v pl
          | some (.str "authorizationEip3009") => validateAuth v pl
          | _ => .error typeMsg

/-- The structural transformation of encodePaymentPayload (paymentUtils.js
lines 3-16): spread-copies the payload and, for the authorization variants,
replaces the three numeric fields by their toString rendering. -/
def encodePayloadTree (p : PVal) : Except String PVal := do
  let pF := spreadList (some p)
  let plOpt ← memberAccess p "payload"
  let plF := spreadList plOpt
  let tOpt ← accessOpt plOpt "type"
  if isAuthTypeOpt tOpt then do
    let aOpt ← accessOpt plOpt "authorization"
    let aF := spreadList aOpt
    let vOpt ← accessOpt aOpt "value"
    let vS ← jsToStringOpt vOpt
    let vaOpt ← accessOpt aOpt "validAfter"
    let vaS ← jsToStringOpt vaOpt
    let vbOpt ← accessOpt aOpt "validBefore"
    let vbS ← jsToStringOpt vbOpt
    let aF' := setField (setField (setField aF "value" (.str vS))
      "validAfter" (.str vaS)) "validBefore" (.str vbS)
    pure (.obj (setField pF "payload" (.obj (setField plF "authorization" (.obj aF')))))
  else
    pure (.obj (setField pF "payload" (.obj plF)))

/-- The structural reconstruction of decodePaymentPayload (paymentUtils.js
lines 22-36): spread-copies the parsed tree, converts the three numeric
fields back through BigInt for the authorization variants, then validates. -/
def decodePayloadTree (parsed : PVal) : Except String PVal := do
  let pF := spreadList (some parsed)
  let plOpt ← memberAccess parsed "payload"
  let plF := spreadList plOpt
  let tOpt ← accessOpt plOpt "type"
  if isAuthTypeOpt tOpt then do
    let aOpt ← accessOpt plOpt "authorization"
    let aF := spreadList aOpt
    let vOpt ← accessOpt aOpt "value"
    let v ← jsBigInt vOpt
    let vaOpt ← accessOpt aOpt "validAfter"
    let va ← jsBigInt vaOpt
    let vbOpt ← accessOpt aOpt "validBefore"
    let vb ← jsBigInt vbOpt
    let aF' := setField (setField (setField aF "value" (.bigint v))
      "validAfter" (.bigint va)) "validBefore" (.bigint vb)
    validatePaymentPayload (.obj (setField pF "payload" (.obj (setField plF "authorization" (.obj aF')))))
  else
    validatePaymentPayload (.obj (setField pF "payload" (.obj plF)))

/-- Modelled from the spec: the JSON.stringify and safeBase64Encode
composition of paymentUtils.js line 17.  The base64 primitive lives in
base64.js, which is not part of the sources; per the spec it is a total
encode/decode pair, so both serialization steps are taken as parameters
(instantiable with String transports). -/
def encodePaymentPayload {T U : Type} (ser : PVal → T) (enc : T → U) (payment : PVal) :
    Except String U :=
  (encodePayloadTree payment).map (fun t => enc (ser t))

/-- Modelled from the spec: safeBase64Decode and JSON.parse of
paymentUtils.js lines 20-21, as parameters like in encodePaymentPayload;
a parse failure surfaces as the SyntaxError JSON.parse would throw. -/
def decodePaymentPayload {T U : Type} (dec : U → T) (de : T → Option PVal) (payment : U) :
    Except String PVal :=
  match de (dec payment) with
  | none => .error "SyntaxError: Unexpected token in JSON"
  | some parsed => decodePayloadTree parsed

mutual
/-- A tree JSON.stringify serializes and JSON.parse reproduces exactly:
no bigints anywhere (stringify throws on them), everything else in the
model is JSON-native. -/
def jsonPure : PVal → Bool
  | .null => true
  | .bool _ => true
  | .num _ => true
  | .str _ => true
  | .bigint _ => false
  | .obj fs => jsonPureFields fs
  | .arr es => jsonPureElems es

/-- jsonPure over the field list of an object. -/
def jsonPureFields : List (String × PVal) → Bool
  | [] => true
  | (_, v) :: r => jsonPure v && jsonPureFields r

/-- jsonPure over the element list of an array. -/
def jsonPureElems : List PVal → Bool
  | [] => true
  | v :: r => jsonPure v && jsonPureElems r
end

/-! ### The verify client (src/app/facilitator.js lines 85-133) -/

/-- A facilitator HTTP response as verify observes it: status, statusText
and the JSON parse of the body (none when the body is not valid JSON). -/
structure FacResponse where
  status : Nat
  statusText : String
  body : Option PVal

/-- The fallback error text of facilitator.js line 116. -/
def verifyDefaultMsg (res : FacResponse) : PVal :=
  .str ("Failed to verify payment: " ++ res.statusText)

/-- The errorMessage selection of facilitator.js lines 116-125: the JSON
body's error field when the body parses and that field is truthy, else the
default message.  A body whose error lookup would throw (a null body, say)
lands in the catch block with the same default message. -/
def verifyErrMsg (res : FacResponse) : PVal :=
  match res.body with
  | some b =>
      match getProp b "error" with
      | some e => if truthy e then e else verifyDefaultMsg res
      | none => verifyDefaultMsg res
  | none => verifyDefaultMsg res

/-- The response handling of verify (facilitator.js lines 114-132): non-200
statuses return an isValid false record without throwing; a 200 status
returns the parsed body and propagates a JSON parse failure. -/
def verify (res : FacResponse) : Except String PVal :=
  if res.status = 200 then
    match res.body with
    | some d => .ok d
    | none => .error "SyntaxError: JSON.parse"
  else
    .ok (.obj [("isValid", .bool false), ("errorMessage", verifyErrMsg res)])

/-! ### The JSON-safety sanitizer (src/app/facilitator.js lines 9-66)

JS object identity matters here (the seen WeakSet is keyed by reference),
so objects live in an explicit heap and values reference them by address.
-/

/-- A JS runtime value as toJsonSafe dispatches on it: primitives carry
their content, every object (plain object, array, Set, Map, Date) is an
address into the heap. -/
inductive JSVal where
  | undef
  | jsnull
  | bool (b : Bool)
  | num (n : Int)
  | str (s : String)
  | bigint (n : Int)
  | symbol (d : String)
  | fn
  | ref (a : Nat)
deriving DecidableEq

/-- A heap object: the shapes toJsonSafe distinguishes by instanceof and
Array.isArray.  Map keys are modelled as strings (Object.fromEntries turns
them into property keys); a Date is kept as its ISO rendering. -/
inductive HObj where
  | obj (fields : List (String × JSVal))
  | arr (elems : List JSVal)
  | hset (elems : List JSVal)
  | hmap (entries : List (String × JSVal))
  | date (iso : String)
deriving DecidableEq

/-- The object heap: addresses are list positions. -/
structure Heap where
  objs : List HObj
deriving DecidableEq

/-- Address lookup. -/
def Heap.lookup (h : Heap) (a : Nat) : Option HObj := h.objs.get? a

/-- The sanitizer's output trees.  raw marks a value the JS code passes
through without sanitizing (possible for Set elements, Map entry values
and non-object array items); strings, numbers and booleans that pass
through are represented by their own constructors. -/
inductive JOut where
  | obj (fields : List (String × JOut))
  | arr (elems : List JOut)
  | str (s : String)
  | num (n : Int)
  | bool (b : Bool)
  | raw (v : JSVal)

/-- Injection of a passed-through JS value into the output tree. -/
def rawOut : JSVal → JOut
  | .str s => .str s
  | .num n => .num n
  | .bool b => .bool b
  | v => .raw v

/-- Errors during sanitization: a JS exception message, or exhaustion of
the modelling fuel (which never happens with fuel above the heap size,
see sanitize_ok below). -/
inductive SanErr where
  | js (msg : String)
  | fuelOut
deriving DecidableEq

/-- The catch block of toJsonSafe (facilitator.js lines 63-65): prefixes
the message of a JS error; the fuel marker is a modelling artifact and is
passed through. -/
def wrapSan : SanErr → SanErr
  | .js m => .js ("Failed to convert to JSON-safe format: " ++ m)
  | .fuelOut => .fuelOut

/-- The cycle sentinel of facilitator.js line 14. -/
def circObj : JOut := .obj [("[Circular]", .bool true)]

/-- Object.fromEntries on modelled string-keyed entries: later duplicate
keys overwrite in place. -/
def fromEntriesJs (l : List (String × JSVal)) : List (String × JSVal) :=
  l.foldl (fun acc kv => setField acc kv.1 kv.2) []

/-- The Symbol.prototype.toString rendering. -/
def symbolToString (d : String) : String := "Symbol(" ++ d ++ ")"

/-- The element mapping of the Array.isArray branch (facilitator.js lines
47-49): objects are recursively sanitized (threading the seen set),
everything else passes through raw. -/
def itemsGo (san : JSVal → Finset Nat → Except SanErr (JOut × Finset Nat)) :
    List JSVal → Finset Nat → Except SanErr (List JOut × Finset Nat)
  | [], seen => .ok ([], seen)
  | it :: rest, seen =>
      match it with
      | .ref a => do
          let (r, s₁) ← san (.ref a) seen
          let (rs, s₂) ← itemsGo san rest s₁
          .ok (r :: rs, s₂)
      | v => do
          let (rs, s₁) ← itemsGo san rest seen
          .ok (rawOut v :: rs, s₁)

/-- One iteration of the Object.entries reduce of toJsonSafe
(facilitator.js lines 27-61): none drops the key (undefined and null
values), otherwise the binding to store.  Dates, bigints and symbols
convert to strings, Set elements and Map entry values pass through raw,
array items are mapped by itemsGo, plain objects recurse through san
(the sanitizer at the enclosing fuel level), functions become a marker
and the remaining primitives pass through. -/
def entStep (san : JSVal → Finset Nat → Except SanErr (JOut × Finset Nat)) (h : Heap)
    (k : String) (v : JSVal) (seen : Finset Nat) :
    Except SanErr (Option (String × JOut) × Finset Nat) :=
  match v with
  | .undef => .ok (none, seen)
  | .jsnull => .ok (none, seen)
  | .bigint n => .ok (some (k, .str (intToDec n)), seen)
  | .symbol d => .ok (some (k, .str (symbolToString d)), seen)
  | .fn => .ok (some (k, .str "[Function]"), seen)
  | .bool b => .ok (some (k, .bool b), seen)
  | .num n => .ok (some (k, .num n), seen)
  | .str s => .ok (some (k, .str s), seen)
  | .ref a =>
      match h.lookup a with
      | some (.date iso) => .ok (some (k, .str iso), seen)
      | some (.hset es) => .ok (some (k, .arr (es.map rawOut)), seen)
      | some (.hmap ms) =>
          .ok (some (k, .obj ((fromEntriesJs ms).map (fun p => (p.1, rawOut p.2)))), seen)
      | some (.arr es) => (itemsGo san es seen).map (fun p => (some (k, .arr p.1), p.2))
      | some (.obj _) => (san (.ref a) seen).map (fun p => (some (k, p.1), p.2))
      | none => (san (.ref a) seen).map (fun p => (some (k, p.1), p.2))

/-- The Object.entries reduce of toJsonSafe (facilitator.js lines 27-61):
entStep on each entry in order, threading the seen set. -/
def entsGo (san : JSVal → Finset Nat → Except SanErr (JOut × Finset Nat)) (h : Heap) :
    List (String × JSVal) → Finset Nat → Except SanErr (List (String × JOut) × Finset Nat)
  | [], seen => .ok ([], seen)
  | (k, v) :: rest, seen => do
      let (o, s₁) ← entStep san h k v seen
      let (rs, s₂) ← entsGo san h rest s₁
      match o with
      | some e => .ok (e :: rs, s₂)
      | none => .ok (rs, s₂)

/-- Map an entries result into the object the reduce produces, applying
the catch block the given number of times. -/
def sanWrap (wraps : Nat) (r : Except SanErr (List (String × JOut) × Finset Nat)) :
    Except SanErr (JOut × Finset Nat) :=
  match r with
  | .ok (fs, s) => .ok (.obj fs, s)
  | .error e => .error (Nat.rec e (fun _ acc => wrapSan acc) wraps)

/-- toJsonSafe (facilitator.js lines 9-66) with explicit fuel.  One fuel
unit is spent per nested sanitizer activation; heap size + 1 units always
suffice (sanitize_ok below), so the fuelOut branch is unreachable from
toJsonSafe on well-formed heaps.  A Set or Map is re-sanitized through a
fresh array or object (Array.from / Object.fromEntries): the fresh object
has a fresh identity, so this reduces to walking its index-keyed entries
with the same seen set; its JS error messages pass the catch block twice.
The top-level guard throws on primitives before the try block. -/
def sanF (h : Heap) : Nat → JSVal → Finset Nat → Except SanErr (JOut × Finset Nat)
  | 0, _, _ => .error .fuelOut
  | f + 1, v, seen =>
      match v with
      | .ref a =>
          if a ∈ seen then .ok (circObj, seen)
          else
            let s₁ := insert a seen
            match h.lookup a with
            | none => .error (.js "invalid object reference")
            | some (.date iso) => .ok (.str iso, s₁)
            | some (.hset es) => sanWrap 2 (entsGo (sanF h f) h (indexFields es) s₁)
            | some (.hmap ms) => sanWrap 2 (entsGo (sanF h f) h (fromEntriesJs ms) s₁)
            | some (.arr es) => sanWrap 1 (entsGo (sanF h f) h (indexFields es) s₁)
            | some (.obj fs) => sanWrap 1 (entsGo (sanF h f) h fs s₁)
      | _ => .error (.js "Input must be a valid object or array")

/-- toJsonSafe with its default empty seen set and sufficient fuel. -/
def toJsonSafe (h : Heap) (v : JSVal) : Except SanErr (JOut × Finset Nat) :=
  sanF h (h.objs.length + 1) v ∅

/-! ### Sanitizer metatheory: the seen set, termination and output shape -/

/-- Value-level address bound: references point below N. -/
def valRefBound (N : Nat) : JSVal → Bool
  | .ref a => decide (a < N)
  | _ => true

/-- The values a heap object contains. -/
def objVals : HObj → List JSVal
  | .obj fs => fs.map Prod.snd
  | .arr es => es
  | .hset es => es
  | .hmap ms => ms.map Prod.snd
  | .date _ => []

/-- A well-formed heap: every reference stored in any object is a valid
address.  Every heap reachable by a JS program is closed in this sense. -/
def heapClosed (h : Heap) : Bool :=
  h.objs.all (fun ho => (objVals ho).all (valRefBound h.objs.length))

/-- Count of valid addresses not yet in the seen set: the sanitizer's
termination measure. -/
def unseen (h : Heap) (s : Finset Nat) : Nat :=
  (Finset.range h.objs.length \ s).card

theorem unseen_anti {h : Heap} {s s' : Finset Nat} (hss : s ⊆ s') :
    unseen h s' ≤ unseen h s :=
  Finset.card_le_card (Finset.sdiff_subset_sdiff (Finset.Subset.refl _) hss)

theorem unseen_insert_lt {h : Heap} {s : Finset Nat} {a : Nat}
    (ha : a < h.objs.length) (has : a ∉ s) : unseen h (insert a s) < unseen h s := by
  apply Finset.card_lt_card
  rw [Finset.ssubset_iff_of_subset
    (Finset.sdiff_subset_sdiff (Finset.Subset.refl _) (Finset.subset_insert a s))]
  refine ⟨a, ?_, by simp⟩
  simp [Finset.mem_sdiff, Finset.mem_range]
  exact ⟨ha, has⟩

theorem lookup_mem {h : Heap} {a : Nat} {ho : HObj} (hl : h.lookup a = some ho) :
    ho ∈ h.objs :=
  List.get?_mem hl

theorem lookup_lt {h : Heap} {a : Nat} {ho : HObj} (hl : h.lookup a = some ho) :
    a < h.objs.length := by
  rw [Heap.lookup] at hl
  obtain ⟨hlt, -⟩ := List.get?_eq_some.mp hl
  exact hlt

theorem lookup_of_lt {h : Heap} {a : Nat} (ha : a < h.objs.length) :
    ∃ ho, h.lookup a = some ho := by
  rw [Heap.lookup]
  exact ⟨_, List.get?_eq_get ha⟩

theorem exbind_ok {ε α β : Type} (a : α) (f : α → Except ε β) :
    (Except.ok a >>= f) = f a := rfl

theorem exbind_error {ε α β : Type} (e : ε) (f : α → Except ε β) :
    ((Except.error e : Except ε α) >>= f) = .error e := rfl

theorem exmap_ok {ε α β : Type} (a : α) (f : α → β) :
    (Except.ok a : Except ε α).map f = .ok (f a) := rfl

theorem exmap_error {ε α β : Type} (e : ε) (f : α → β) :
    (Except.error e : Except ε α).map f = .error e := rfl

theorem itemsGo_mono {san : JSVal → Finset Nat → Except SanErr (JOut × Finset Nat)}
    (hsan : ∀ v s r s', san v s = .ok (r, s') → s ⊆ s') :
    ∀ its s rs s', itemsGo san its s = .ok (rs, s') → s ⊆ s' := by
  intro its
  induction its with
  | nil =>
      intro s rs s' hok
      simp only [itemsGo] at hok
      simp [Prod.ext_iff] at hok
      rw [hok.2]
  | cons it rest ih =>
      intro s rs s' hok
      cases it
      case ref a =>
        simp only [itemsGo] at hok
        cases hs : san (.ref a) s with
        | error e => rw [hs, exbind_error] at hok; exact Except.noConfusion hok
        | ok p =>
            obtain ⟨r, s₁⟩ := p
            rw [hs, exbind_ok] at hok
            cases hr : itemsGo san rest s₁ with
            | error e => rw [hr, exbind_error] at hok; exact Except.noConfusion hok
            | ok q =>
                obtain ⟨rs₀, s₂⟩ := q
                rw [hr, exbind_ok] at hok
                simp [Prod.ext_iff] at hok
                rw [← hok.2]
                exact (hsan _ _ _ _ hs).trans (ih s₁ rs₀ s₂ hr)
      all_goals (
        simp only [itemsGo] at hok
        cases hr : itemsGo san rest s with
        | error e => rw [hr, exbind_error] at hok; exact Except.noConfusion hok
        | ok q =>
            obtain ⟨rs₀, s₂⟩ := q
            rw [hr, exbind_ok] at hok
            simp [Prod.ext_iff] at hok
            rw [← hok.2]
            exact ih s rs₀ s₂ hr)

theorem entStep_mono {san : JSVal → Finset Nat → Except SanErr (JOut × Finset Nat)}
    (hsan : ∀ v s r s', san v s = .ok (r, s') → s ⊆ s') {h : Heap}
    (k : String) (v : JSVal) (s : Finset Nat) (o : Option (String × JOut)) (s' : Finset Nat)
    (hok : entStep san h k v s = .ok (o, s')) : s ⊆ s' := by
  cases v
  case ref a =>
    simp only [entStep] at hok
    cases hl : h.lookup a with
    | none =>
        rw [hl] at hok
        cases hs : san (.ref a) s with
        | error e => rw [hs, exmap_error] at hok; exact Except.noConfusion hok
        | ok p =>
            rw [hs, exmap_ok] at hok
            simp [Prod.ext_iff] at hok
            rw [← hok.2]
            exact hsan _ _ _ _ hs
    | some ho =>
        cases ho <;> rw [hl] at hok <;> dsimp only at hok
        case obj fs =>
          cases hs : san (.ref a) s with
          | error e => rw [hs, exmap_error] at hok; exact Except.noConfusion hok
          | ok p =>
              rw [hs, exmap_ok] at hok
              simp [Prod.ext_iff] at hok
              rw [← hok.2]
              exact hsan _ _ _ _ hs
        case arr es =>
          cases hs : itemsGo san es s with
          | error e => rw [hs, exmap_error] at hok; exact Except.noConfusion hok
          | ok p =>
              rw [hs, exmap_ok] at hok
              simp [Prod.ext_iff] at hok
              rw [← hok.2]
              exact itemsGo_mono hsan es s p.1 p.2 hs
        all_goals (simp [Prod.ext_iff] at hok; rw [← hok.2])
  all_goals (
    simp only [entStep] at hok
    simp [Prod.ext_iff] at hok
    rw [← hok.2])

theorem entsGo_mono {san : JSVal → Finset Nat → Except SanErr (JOut × Finset Nat)}
    (hsan : ∀ v s r s', san v s = .ok (r, s') → s ⊆ s') {h : Heap} :
    ∀ es s rs s', entsGo san h es s = .ok (rs, s') → s ⊆ s' := by
  intro es
  induction es with
  | nil =>
      intro s rs s' hok
      simp only [entsGo] at hok
      simp [Prod.ext_iff] at hok
      rw [hok.2]
  | cons kv rest ih =>
      intro s rs s' hok
      obtain ⟨k, v⟩ := kv
      simp only [entsGo] at hok
      cases hs : entStep san h k v s with
      | error e => rw [hs, exbind_error] at hok; exact Except.noConfusion hok
      | ok p =>
          obtain ⟨o, s₁⟩ := p
          rw [hs, exbind_ok] at hok
          cases hr : entsGo san h rest s₁ with
          | error e => rw [hr, exbind_error] at hok; exact Except.noConfusion hok
          | ok q =>
              obtain ⟨rs₀, s₂⟩ := q
              rw [hr, exbind_ok] at hok
              have hs₁ := entStep_mono hsan k v s o s₁ hs
              have hs₂ := ih s₁ rs₀ s₂ hr
              cases o <;> simp [Prod.ext_iff] at hok <;> rw [← hok.2] <;>
                exact hs₁.trans hs₂

theorem sanWrap_ok {w : Nat} {r : Except SanErr (List (String × JOut) × Finset Nat)}
    {out : JOut × Finset Nat} (hok : sanWrap w r = .ok out) :
    ∃ fs, r = .ok (fs, out.2) ∧ out.1 = .obj fs := by
  cases r with
  | error e => simp [sanWrap] at hok
  | ok p =>
      obtain ⟨fs, s⟩ := p
      simp only [sanWrap] at hok
      injection hok with h1
      subst h1
      exact ⟨fs, rfl, rfl⟩

theorem sanF_mono (h : Heap) :
    ∀ f v s r s', sanF h f v s = .ok (r, s') → s ⊆ s' := by
  intro f
  induction f with
  | zero => intro v s r s' hok; exact Except.noConfusion hok
  | succ f ih =>
      intro v s r s' hok
      cases v
      case ref a =>
        simp only [sanF] at hok
        by_cases hmem : a ∈ s
        · rw [if_pos hmem] at hok
          simp [Prod.ext_iff] at hok
          rw [← hok.2]
        · rw [if_neg hmem] at hok
          cases hl : h.lookup a with
          | none => rw [hl] at hok; exact Except.noConfusion hok
          | some ho =>
              have hins : s ⊆ insert a s := Finset.subset_insert a s
              cases ho <;> rw [hl] at hok <;> dsimp only at hok <;>
                first
                | (simp only [Except.ok.injEq, Prod.mk.injEq] at hok
                   rw [← hok.2]
                   exact hins)
                | (obtain ⟨fs, hE, -⟩ := sanWrap_ok hok
                   exact hins.trans (entsGo_mono ih _ _ _ _ hE))
      all_goals exact Except.noConfusion hok

theorem mem_setField {α : Type} {l : List (String × α)} {k : String} {x : α} {kv : String × α}
    (hm : kv ∈ setField l k x) : kv ∈ l ∨ kv = (k, x) := by
  induction l with
  | nil =>
      simp [setField] at hm
      exact Or.inr hm
  | cons hd t ih =>
      obtain ⟨k₀, v⟩ := hd
      by_cases hk : k₀ = k
      · subst hk
        simp [setField] at hm
        rcases hm with hm | hm
        · exact Or.inr (by rw [hm])
        · exact Or.inl (List.mem_cons_of_mem _ hm)
      · simp [setField, hk] at hm
        rcases hm with hm | hm
        · exact Or.inl (by rw [hm]; exact List.mem_cons_self _ _)
        · rcases ih hm with h | h
          · exact Or.inl (List.mem_cons_of_mem _ h)
          · exact Or.inr h

theorem foldl_setField_mem {β : Type} :
    ∀ (ms : List (String × β)) (acc : List (String × β)) (kv : String × β),
      kv ∈ ms.foldl (fun acc kv => setField acc kv.1 kv.2) acc →
      kv ∈ acc ∨ ∃ kv' ∈ ms, kv.2 = kv'.2 := by
  intro ms
  induction ms with
  | nil => intro acc kv hm; exact Or.inl hm
  | cons m r ih =>
      intro acc kv hm
      rcases ih (setField acc m.1 m.2) kv hm with h | h
      · rcases mem_setField h with h' | h'
        · exact Or.inl h'
        · exact Or.inr ⟨m, List.mem_cons_self _ _, by rw [h']⟩
      · obtain ⟨kv', hkv', he⟩ := h
        exact Or.inr ⟨kv', List.mem_cons_of_mem _ hkv', he⟩

theorem fromEntriesJs_vals {ms : List (String × JSVal)} {kv : String × JSVal}
    (hm : kv ∈ fromEntriesJs ms) : ∃ kv' ∈ ms, kv.2 = kv'.2 := by
  rcases foldl_setField_mem ms [] kv hm with h | h
  · simp at h
  · exact h

theorem indexFields_vals {α : Type} {es : List α} {kv : String × α}
    (hm : kv ∈ indexFields es) : kv.2 ∈ es := by
  simp only [indexFields, List.mem_map] at hm
  obtain ⟨p, hp, hkv⟩ := hm
  have h2 : p.2 ∈ es := by
    rw [← List.enum_map_snd es]
    exact List.mem_map_of_mem _ hp
  rw [← hkv]
  exact h2

theorem heapClosed_vals {h : Heap} (hcl : heapClosed h = true) {ho : HObj} (hm : ho ∈ h.objs) :
    ∀ v ∈ objVals ho, valRefBound h.objs.length v = true := by
  simp only [heapClosed, List.all_eq_true] at hcl
  exact fun v hv => hcl ho hm v hv

theorem itemsGo_ok {h : Heap} {F : Nat} {san : JSVal → Finset Nat → Except SanErr (JOut × Finset Nat)}
    (hsanM : ∀ v s r s', san v s = .ok (r, s') → s ⊆ s')
    (hsanOk : ∀ a s, a < h.objs.length → unseen h s < F → ∃ r s', san (.ref a) s = .ok (r, s')) :
    ∀ its s, (∀ v ∈ its, valRefBound h.objs.length v = true) → unseen h s < F →
      ∃ rs s', itemsGo san its s = .ok (rs, s') := by
  intro its
  induction its with
  | nil => intro s hits hu; exact ⟨[], s, rfl⟩
  | cons it rest ih =>
      intro s hits hu
      cases it
      case ref a =>
        have ha : a < h.objs.length := by
          have := hits (.ref a) (List.mem_cons_self _ _)
          simpa [valRefBound] using this
        obtain ⟨r, s₁, hs⟩ := hsanOk a s ha hu
        have hsub := hsanM _ _ _ _ hs
        have hu₁ : unseen h s₁ < F := lt_of_le_of_lt (unseen_anti hsub) hu
        obtain ⟨rs, s₂, hr⟩ := ih s₁ (fun v hv => hits v (List.mem_cons_of_mem _ hv)) hu₁
        refine ⟨r :: rs, s₂, ?_⟩
        simp only [itemsGo]
        rw [hs, exbind_ok, hr, exbind_ok]
      all_goals (
        obtain ⟨rs, s₁, hr⟩ := ih s (fun v hv => hits v (List.mem_cons_of_mem _ hv)) hu
        exact ⟨_, _, by simp only [itemsGo]; rw [hr, exbind_ok]⟩)

theorem entStep_ok {h : Heap} {F : Nat} {san : JSVal → Finset Nat → Except SanErr (JOut × Finset Nat)}
    (hsanM : ∀ v s r s', san v s = .ok (r, s') → s ⊆ s')
    (hsanOk : ∀ a s, a < h.objs.length → unseen h s < F → ∃ r s', san (.ref a) s = .ok (r, s'))
    (hcl : heapClosed h = true) (k : String) (v : JSVal) (s : Finset Nat)
    (hv : valRefBound h.objs.length v = true) (hu : unseen h s < F) :
    ∃ o s', entStep san h k v s = .ok (o, s') := by
  cases v
  case ref a =>
    have ha : a < h.objs.length := by simpa [valRefBound] using hv
    obtain ⟨ho, hl⟩ := lookup_of_lt ha
    cases ho
    case date iso => exact ⟨some (k, .str iso), s, by simp [entStep, hl]⟩
    case hset es => exact ⟨some (k, .arr (es.map rawOut)), s, by simp [entStep, hl]⟩
    case hmap ms =>
      exact ⟨some (k, .obj ((fromEntriesJs ms).map (fun p => (p.1, rawOut p.2)))), s,
        by simp [entStep, hl]⟩
    case arr es =>
      have hbnd : ∀ v' ∈ es, valRefBound h.objs.length v' = true := by
        have := heapClosed_vals hcl (lookup_mem hl)
        simpa [objVals] using this
      obtain ⟨rs, s₁, hits⟩ := itemsGo_ok hsanM hsanOk es s hbnd hu
      refine ⟨some (k, .arr rs), s₁, ?_⟩
      simp only [entStep]
      rw [hl]
      dsimp only
      rw [hits, exmap_ok]
    case obj fs =>
      obtain ⟨r, s₁, hs⟩ := hsanOk a s ha hu
      refine ⟨some (k, r), s₁, ?_⟩
      simp only [entStep]
      rw [hl]
      dsimp only
      rw [hs, exmap_ok]
  all_goals exact ⟨_, s, rfl⟩

theorem entsGo_ok {h : Heap} {F : Nat} {san : JSVal → Finset Nat → Except SanErr (JOut × Finset Nat)}
    (hsanM : ∀ v s r s', san v s = .ok (r, s') → s ⊆ s')
    (hsanOk : ∀ a s, a < h.objs.length → unseen h s < F → ∃ r s', san (.ref a) s = .ok (r, s'))
    (hcl : heapClosed h = true) :
    ∀ es s, (∀ kv ∈ es, valRefBound h.objs.length kv.2 = true) → unseen h s < F →
      ∃ rs s', entsGo san h es s = .ok (rs, s') := by
  intro es
  induction es with
  | nil => intro s hes hu; exact ⟨[], s, rfl⟩
  | cons kv rest ih =>
      intro s hes hu
      obtain ⟨k, v⟩ := kv
      obtain ⟨o, s₁, hstep⟩ :=
        entStep_ok hsanM hsanOk hcl k v s (hes (k, v) (List.mem_cons_self _ _)) hu
      have hsub := entStep_mono hsanM k v s o s₁ hstep
      have hu₁ : unseen h s₁ < F := lt_of_le_of_lt (unseen_anti hsub) hu
      obtain ⟨rs, s₂, hrest⟩ := ih s₁ (fun kv' hkv' => hes kv' (List.mem_cons_of_mem _ hkv')) hu₁
      cases o with
      | some e =>
          refine ⟨e :: rs, s₂, ?_⟩
          simp only [entsGo]
          rw [hstep, exbind_ok, hrest, exbind_ok]
      | none =>
          refine ⟨rs, s₂, ?_⟩
          simp only [entsGo]
          rw [hstep, exbind_ok, hrest, exbind_ok]

theorem sanF_ok {h : Heap} (hcl : heapClosed h = true) :
    ∀ f a s, a < h.objs.length → unseen h s < f →
      ∃ r s', sanF h f (.ref a) s = .ok (r, s') := by
  intro f
  induction f with
  | zero => intro a s ha hu; omega
  | succ f ih =>
      intro a s ha hu
      by_cases hmem : a ∈ s
      · exact ⟨circObj, s, by simp [sanF, hmem]⟩
      · obtain ⟨ho, hl⟩ := lookup_of_lt ha
        have hu₁ : unseen h (insert a s) < f := by
          have := unseen_insert_lt ha hmem
          omega
        have hsanM : ∀ v s r s', sanF h f v s = .ok (r, s') → s ⊆ s' :=
          fun v s r s' => sanF_mono h f v s r s'
        cases ho with
        | date iso => exact ⟨.str iso, insert a s, by simp [sanF, hmem, hl]⟩
        | obj fs =>
          have hbnd : ∀ kv ∈ fs, valRefBound h.objs.length kv.2 = true := by
            have := heapClosed_vals hcl (lookup_mem hl)
            simp only [objVals] at this
            exact fun kv hkv => this kv.2 (List.mem_map_of_mem _ hkv)
          obtain ⟨rs, s₂, hE⟩ := entsGo_ok hsanM ih hcl fs (insert a s) hbnd hu₁
          refine ⟨.obj rs, s₂, ?_⟩
          simp only [sanF, if_neg hmem]
          rw [hl]
          dsimp only
          rw [hE]
          rfl
        | arr es =>
          have hbnd : ∀ kv ∈ indexFields es, valRefBound h.objs.length kv.2 = true := by
            have hv := heapClosed_vals hcl (lookup_mem hl)
            simp only [objVals] at hv
            exact fun kv hkv => hv kv.2 (indexFields_vals hkv)
          obtain ⟨rs, s₂, hE⟩ := entsGo_ok hsanM ih hcl (indexFields es) (insert a s) hbnd hu₁
          refine ⟨.obj rs, s₂, ?_⟩
          simp only [sanF, if_neg hmem]
          rw [hl]
          dsimp only
          rw [hE]
          rfl
        | hset es =>
          have hbnd : ∀ kv ∈ indexFields es, valRefBound h.objs.length kv.2 = true := by
            have hv := heapClosed_vals hcl (lookup_mem hl)
            simp only [objVals] at hv
            exact fun kv hkv => hv kv.2 (indexFields_vals hkv)
          obtain ⟨rs, s₂, hE⟩ := entsGo_ok hsanM ih hcl (indexFields es) (insert a s) hbnd hu₁
          refine ⟨.obj rs, s₂, ?_⟩
          simp only [sanF, if_neg hmem]
          rw [hl]
          dsimp only
          rw [hE]
          rfl
        | hmap ms =>
          have hbnd : ∀ kv ∈ fromEntriesJs ms, valRefBound h.objs.length kv.2 = true := by
            have hv := heapClosed_vals hcl (lookup_mem hl)
            simp only [objVals] at hv
            intro kv hkv
            obtain ⟨kv', hkv', he⟩ := fromEntriesJs_vals hkv
            rw [he]
            exact hv kv'.2 (List.mem_map_of_mem _ hkv')
          obtain ⟨rs, s₂, hE⟩ := entsGo_ok hsanM ih hcl (fromEntriesJs ms) (insert a s) hbnd hu₁
          refine ⟨.obj rs, s₂, ?_⟩
          simp only [sanF, if_neg hmem]
          rw [hl]
          dsimp only
          rw [hE]
          rfl

/-- Total success of toJsonSafe on any object of a closed heap: the
default fuel is sufficient, so the traversal terminates with a result
even on cyclic heaps. -/
theorem toJsonSafe_ok {h : Heap} (hcl : heapClosed h = true) {a : Nat}
    (ha : a < h.objs.length) : ∃ r s', toJsonSafe h (.ref a) = .ok (r, s') := by
  apply sanF_ok hcl
  · exact ha
  · have hle : unseen h ∅ = h.objs.length := by
      rw [unseen, Finset.sdiff_empty, Finset.card_range]
    omega

/-- Array elements that the array branch of the sanitizer maps to
JSON-native output: object references (recursively sanitized) and the
pass-through primitives. -/
def elemOkB : JSVal → Bool
  | .ref _ => true
  | .str _ => true
  | .num _ => true
  | .bool _ => true
  | _ => false

/-- Heap objects whose sanitization cannot leak raw values: no Sets, no
Maps (their contents pass through unsanitized), and arrays restricted to
elemOkB elements. -/
def guardObj : HObj → Bool
  | .hset _ => false
  | .hmap _ => false
  | .arr es => es.all elemOkB
  | _ => true

/-- A heap on which the sanitizer's output is fully JSON-native. -/
def heapGuard (h : Heap) : Bool := h.objs.all guardObj

mutual
/-- Output trees made only of objects, arrays, strings, numbers and
booleans: what a standard JSON serializer always accepts. -/
def nativeB : JOut → Bool
  | .obj fs => nativeFieldsB fs
  | .arr es => nativeElemsB es
  | .str _ => true
  | .num _ => true
  | .bool _ => true
  | .raw _ => false

/-- nativeB over object fields. -/
def nativeFieldsB : List (String × JOut) → Bool
  | [] => true
  | (_, r) :: rest => nativeB r && nativeFieldsB rest

/-- nativeB over array elements. -/
def nativeElemsB : List JOut → Bool
  | [] => true
  | r :: rest => nativeB r && nativeElemsB rest
end

theorem nativeFieldsB_iff {fs : List (String × JOut)} :
    nativeFieldsB fs = true ↔ ∀ p ∈ fs, nativeB p.2 = true := by
  induction fs with
  | nil => simp [nativeFieldsB]
  | cons p rest ih =>
      obtain ⟨k, r⟩ := p
      simp [nativeFieldsB, ih]

theorem nativeElemsB_iff {es : List JOut} :
    nativeElemsB es = true ↔ ∀ r ∈ es, nativeB r = true := by
  induction es with
  | nil => simp [nativeElemsB]
  | cons r rest ih => simp [nativeElemsB, ih]

theorem heapGuard_obj {h : Heap} (hg : heapGuard h = true) {ho : HObj} (hm : ho ∈ h.objs) :
    guardObj ho = true := by
  simp only [heapGuard, List.all_eq_true] at hg
  exact hg ho hm

theorem itemsGo_native {san : JSVal → Finset Nat → Except SanErr (JOut × Finset Nat)}
    (hsanN : ∀ v s r s', san v s = .ok (r, s') → nativeB r = true) :
    ∀ its s rs s', (∀ v ∈ its, elemOkB v = true) → itemsGo san its s = .ok (rs, s') →
      ∀ r ∈ rs, nativeB r = true := by
  intro its
  induction its with
  | nil =>
      intro s rs s' hits hok
      simp only [itemsGo] at hok
      injection hok with h1
      cases h1
      simp
  | cons it rest ih =>
      intro s rs s' hits hok
      have htl : ∀ v ∈ rest, elemOkB v = true :=
        fun v hv => hits v (List.mem_cons_of_mem _ hv)
      cases it
      case ref a =>
        simp only [itemsGo] at hok
        cases hs : san (.ref a) s with
        | error e => rw [hs, exbind_error] at hok; exact Except.noConfusion hok
        | ok p =>
            obtain ⟨r, s₁⟩ := p
            rw [hs, exbind_ok] at hok
            cases hr : itemsGo san rest s₁ with
            | error e => rw [hr, exbind_error] at hok; exact Except.noConfusion hok
            | ok q =>
                obtain ⟨rs₀, s₂⟩ := q
                rw [hr, exbind_ok] at hok
                injection hok with h1
                cases h1
                intro x hx
                rcases List.mem_cons.mp hx with hx | hx
                · rw [hx]; exact hsanN _ _ _ _ hs
                · exact ih _ _ _ htl hr x hx
      case undef => simp [elemOkB] at hits
      case jsnull => simp [elemOkB] at hits
      case bigint n => simp [elemOkB] at hits
      case symbol d => simp [elemOkB] at hits
      case fn => simp [elemOkB] at hits
      all_goals (
        simp only [itemsGo] at hok
        cases hr : itemsGo san rest s with
        | error e => rw [hr, exbind_error] at hok; exact Except.noConfusion hok
        | ok q =>
            obtain ⟨rs₀, s₂⟩ := q
            rw [hr, exbind_ok] at hok
            injection hok with h1
            cases h1
            intro x hx
            rcases List.mem_cons.mp hx with hx | hx
            · rw [hx]; simp [rawOut, nativeB]
            · exact ih _ _ _ htl hr x hx)

theorem entStep_native {h : Heap} {san : JSVal → Finset Nat → Except SanErr (JOut × Finset Nat)}
    (hsanN : ∀ v s r s', san v s = .ok (r, s') → nativeB r = true)
    (hg : heapGuard h = true) {k : String} {v : JSVal} {s : Finset Nat}
    {o : Option (String × JOut)} {s' : Finset Nat}
    (hok : entStep san h k v s = .ok (o, s')) :
    ∀ e, o = some e → nativeB e.2 = true := by
  intro e he
  subst he
  cases v <;> simp only [entStep] at hok
  case undef => injection hok with h1; cases h1
  case jsnull => injection hok with h1; cases h1
  case bool b => injection hok with h1; cases h1; simp [nativeB]
  case num n => injection hok with h1; cases h1; simp [nativeB]
  case str st => injection hok with h1; cases h1; simp [nativeB]
  case bigint n => injection hok with h1; cases h1; simp [nativeB]
  case symbol d => injection hok with h1; cases h1; simp [nativeB]
  case fn => injection hok with h1; cases h1; simp [nativeB]
  case ref a =>
    cases hl : h.lookup a with
    | none =>
        rw [hl] at hok
        dsimp only at hok
        cases hs : san (.ref a) s with
        | error er => rw [hs, exmap_error] at hok; exact Except.noConfusion hok
        | ok p =>
            rw [hs, exmap_ok] at hok
            injection hok with h1
            cases h1
            exact hsanN _ _ _ _ hs
    | some ho =>
        cases ho with
        | date iso =>
            rw [hl] at hok
            dsimp only at hok
            injection hok with h1
            cases h1
            simp [nativeB]
        | hset es =>
            exact absurd (heapGuard_obj hg (lookup_mem hl)) (by simp [guardObj])
        | hmap ms =>
            exact absurd (heapGuard_obj hg (lookup_mem hl)) (by simp [guardObj])
        | arr es =>
            rw [hl] at hok
            dsimp only at hok
            cases hs : itemsGo san es s with
            | error er => rw [hs, exmap_error] at hok; exact Except.noConfusion hok
            | ok p =>
                obtain ⟨rs, s₁⟩ := p
                rw [hs, exmap_ok] at hok
                injection hok with h1
                cases h1
                have hels : ∀ v' ∈ es, elemOkB v' = true := by
                  have := heapGuard_obj hg (lookup_mem hl)
                  simpa [guardObj, List.all_eq_true] using this
                simp only [nativeB]
                rw [nativeElemsB_iff]
                exact itemsGo_native hsanN _ _ _ _ hels hs
        | obj fs =>
            rw [hl] at hok
            dsimp only at hok
            cases hs : san (.ref a) s with
            | error er => rw [hs, exmap_error] at hok; exact Except.noConfusion hok
            | ok p =>
                rw [hs, exmap_ok] at hok
                injection hok with h1
                cases h1
                exact hsanN _ _ _ _ hs

theorem entsGo_native {h : Heap} {san : JSVal → Finset Nat → Except SanErr (JOut × Finset Nat)}
    (hsanN : ∀ v s r s', san v s = .ok (r, s') → nativeB r = true)
    (hg : heapGuard h = true) :
    ∀ es s rs s', entsGo san h es s = .ok (rs, s') → ∀ p ∈ rs, nativeB p.2 = true := by
  intro es
  induction es with
  | nil =>
      intro s rs s' hok
      simp only [entsGo] at hok
      injection hok with h1
      cases h1
      simp
  | cons kv rest ih =>
      intro s rs s' hok
      obtain ⟨k, v⟩ := kv
      simp only [entsGo] at hok
      cases hs : entStep san h k v s with
      | error e => rw [hs, exbind_error] at hok; exact Except.noConfusion hok
      | ok p =>
          obtain ⟨o, s₁⟩ := p
          rw [hs, exbind_ok] at hok
          cases hr : entsGo san h rest s₁ with
          | error e => rw [hr, exbind_error] at hok; exact Except.noConfusion hok
          | ok q =>
              obtain ⟨rs₀, s₂⟩ := q
              rw [hr, exbind_ok] at hok
              cases o with
              | some e =>
                  dsimp only at hok
                  injection hok with h1
                  cases h1
                  intro p hp
                  rcases List.mem_cons.mp hp with hp | hp
                  · rw [hp]
                    exact entStep_native hsanN hg hs e rfl
                  · exact ih _ _ _ hr p hp
              | none =>
                  dsimp only at hok
                  injection hok with h1
                  cases h1
                  exact ih _ _ _ hr

theorem sanF_native {h : Heap} (hg : heapGuard h = true) :
    ∀ f v s r s', sanF h f v s = .ok (r, s') → nativeB r = true := by
  intro f
  induction f with
  | zero => intro v s r s' hok; exact Except.noConfusion hok
  | succ f ih =>
      intro v s r s' hok
      cases v
      case ref a =>
        simp only [sanF] at hok
        by_cases hmem : a ∈ s
        · rw [if_pos hmem] at hok
          injection hok with h1
          cases h1
          simp [circObj, nativeB, nativeFieldsB]
        · rw [if_neg hmem] at hok
          cases hl : h.lookup a with
          | none => rw [hl] at hok; exact Except.noConfusion hok
          | some ho =>
              cases ho with
              | date iso =>
                  rw [hl] at hok
                  dsimp only at hok
                  injection hok with h1
                  cases h1
                  simp [nativeB]
              | hset es =>
                  exact absurd (heapGuard_obj hg (lookup_mem hl)) (by simp [guardObj])
              | hmap ms =>
                  exact absurd (heapGuard_obj hg (lookup_mem hl)) (by simp [guardObj])
              | arr es =>
                  rw [hl] at hok
                  dsimp only at hok
                  obtain ⟨fs, hE, hr⟩ := sanWrap_ok hok
                  dsimp only at hE hr
                  rw [hr]
                  simp only [nativeB]
                  rw [nativeFieldsB_iff]
                  exact entsGo_native ih hg _ _ _ _ hE
              | obj fs =>
                  rw [hl] at hok
                  dsimp only at hok
                  obtain ⟨fs', hE, hr⟩ := sanWrap_ok hok
                  dsimp only at hE hr
                  rw [hr]
                  simp only [nativeB]
                  rw [nativeFieldsB_iff]
                  exact entsGo_native ih hg _ _ _ _ hE
      all_goals exact Except.noConfusion hok

/-- The values the reduce drops entirely (undefined and null). -/
def nullishB : JSVal → Bool
  | .undef => true
  | .jsnull => true
  | _ => false

/-- The primitives the reduce stores unchanged (the else branch). -/
def primLikeB : JSVal → Bool
  | .str _ => true
  | .num _ => true
  | .bool _ => true
  | _ => false

theorem entStep_shape {san : JSVal → Finset Nat → Except SanErr (JOut × Finset Nat)}
    {h : Heap} {k : String} {v : JSVal} {s : Finset Nat} {o : Option (String × JOut)}
    {s' : Finset Nat} (hok : entStep san h k v s = .ok (o, s')) :
    (nullishB v = true → o = none) ∧
    (nullishB v = false → ∃ r, o = some (k, r) ∧ (primLikeB v = true → r = rawOut v)) := by
  cases v <;> simp only [entStep] at hok
  case undef =>
      injection hok with h1; cases h1
      exact ⟨fun _ => rfl, fun hc => by simp [nullishB] at hc⟩
  case jsnull =>
      injection hok with h1; cases h1
      exact ⟨fun _ => rfl, fun hc => by simp [nullishB] at hc⟩
  case bool b =>
      injection hok with h1; cases h1
      exact ⟨fun hc => by simp [nullishB] at hc, fun _ => ⟨.bool b, rfl, fun _ => rfl⟩⟩
  case num n =>
      injection hok with h1; cases h1
      exact ⟨fun hc => by simp [nullishB] at hc, fun _ => ⟨.num n, rfl, fun _ => rfl⟩⟩
  case str st =>
      injection hok with h1; cases h1
      exact ⟨fun hc => by simp [nullishB] at hc, fun _ => ⟨.str st, rfl, fun _ => rfl⟩⟩
  case bigint n =>
      injection hok with h1; cases h1
      exact ⟨fun hc => by simp [nullishB] at hc,
        fun _ => ⟨.str (intToDec n), rfl, fun hc => by simp [primLikeB] at hc⟩⟩
  case symbol d =>
      injection hok with h1; cases h1
      exact ⟨fun hc => by simp [nullishB] at hc,
        fun _ => ⟨.str (symbolToString d), rfl, fun hc => by simp [primLikeB] at hc⟩⟩
  case fn =>
      injection hok with h1; cases h1
      exact ⟨fun hc => by simp [nullishB] at hc,
        fun _ => ⟨.str "[Function]", rfl, fun hc => by simp [primLikeB] at hc⟩⟩
  case ref a =>
      refine ⟨fun hc => by simp [nullishB] at hc, fun _ => ?_⟩
      cases hl : h.lookup a with
      | none =>
          rw [hl] at hok
          dsimp only at hok
          cases hs : san (.ref a) s with
          | error er => rw [hs, exmap_error] at hok; exact Except.noConfusion hok
          | ok p =>
              rw [hs, exmap_ok] at hok
              injection hok with h1
              cases h1
              exact ⟨p.1, rfl, fun hc => by simp [primLikeB] at hc⟩
      | some ho =>
          cases ho <;> rw [hl] at hok <;> dsimp only at hok
          case date iso =>
              injection hok with h1; cases h1
              exact ⟨.str iso, rfl, fun hc => by simp [primLikeB] at hc⟩
          case hset es =>
              injection hok with h1; cases h1
              exact ⟨.arr (es.map rawOut), rfl, fun hc => by simp [primLikeB] at hc⟩
          case hmap ms =>
              injection hok with h1; cases h1
              exact ⟨.obj ((fromEntriesJs ms).map (fun p => (p.1, rawOut p.2))), rfl,
                fun hc => by simp [primLikeB] at hc⟩
          case arr es =>
              cases hs : itemsGo san es s with
              | error er => rw [hs, exmap_error] at hok; exact Except.noConfusion hok
              | ok p =>
                  rw [hs, exmap_ok] at hok
                  injection hok with h1
                  cases h1
                  exact ⟨.arr p.1, rfl, fun hc => by simp [primLikeB] at hc⟩
          case obj fs =>
              cases hs : san (.ref a) s with
              | error er => rw [hs, exmap_error] at hok; exact Except.noConfusion hok
              | ok p =>
                  rw [hs, exmap_ok] at hok
                  injection hok with h1
                  cases h1
                  exact ⟨p.1, rfl, fun hc => by simp [primLikeB] at hc⟩

theorem entsGo_shape {san : JSVal → Finset Nat → Except SanErr (JOut × Finset Nat)} {h : Heap} :
    ∀ es s rs s', entsGo san h es s = .ok (rs, s') →
      List.Forall₂ (fun (kv : String × JSVal) (kr : String × JOut) =>
        kr.1 = kv.1 ∧ (primLikeB kv.2 = true → kr.2 = rawOut kv.2))
        (es.filter (fun kv => ! nullishB kv.2)) rs := by
  intro es
  induction es with
  | nil =>
      intro s rs s' hok
      simp only [entsGo] at hok
      injection hok with h1
      cases h1
      simp
  | cons kv rest ih =>
      intro s rs s' hok
      obtain ⟨k, v⟩ := kv
      simp only [entsGo] at hok
      cases hs : entStep san h k v s with
      | error e => rw [hs, exbind_error] at hok; exact Except.noConfusion hok
      | ok p =>
          obtain ⟨o, s₁⟩ := p
          rw [hs, exbind_ok] at hok
          cases hr : entsGo san h rest s₁ with
          | error e => rw [hr, exbind_error] at hok; exact Except.noConfusion hok
          | ok q =>
              obtain ⟨rs₀, s₂⟩ := q
              rw [hr, exbind_ok] at hok
              obtain ⟨hnul, hval⟩ := entStep_shape hs
              by_cases hnv : nullishB v = true
              · rw [hnul hnv] at hok
                dsimp only at hok
                injection hok with h1
                cases h1
                simp only [List.filter_cons, hnv]
                exact ih _ _ _ hr
              · obtain ⟨r, ho, hprim⟩ := hval (by revert hnv; cases hh : nullishB v <;> simp)
                rw [ho] at hok
                dsimp only at hok
                injection hok with h1
                cases h1
                have hnv' : nullishB v = false := by
                  revert hnv; cases hh : nullishB v <;> simp
                simp only [List.filter_cons, hnv']
                exact List.Forall₂.cons ⟨rfl, hprim⟩ (ih _ _ _ hr)

theorem forall₂_keys {es : List (String × JSVal)} {rs : List (String × JOut)}
    {R : (String × JSVal) → (String × JOut) → Prop}
    (hf : List.Forall₂ R es rs) (hk : ∀ a b, R a b → b.1 = a.1) :
    rs.map Prod.fst = es.map Prod.fst := by
  induction hf with
  | nil => rfl
  | cons hR hrest ih => simp [hk _ _ hR, ih]

theorem forall₂_mem_right {A B : Type} {R : A → B → Prop} {l₁ : List A} {l₂ : List B}
    (hf : List.Forall₂ R l₁ l₂) {a : A} (ha : a ∈ l₁) : ∃ b ∈ l₂, R a b := by
  induction hf with
  | nil => simp at ha
  | cons hR hrest ih =>
      rcases List.mem_cons.mp ha with ha | ha
      · subst ha
        exact ⟨_, List.mem_cons_self _ _, hR⟩
      · obtain ⟨b, hb, hRb⟩ := ih ha
        exact ⟨b, List.mem_cons_of_mem _ hb, hRb⟩

theorem keys_nodup_val_eq {α : Type} {l : List (String × α)}
    (hnd : (l.map Prod.fst).Nodup) {k : String} {v w : α}
    (h1 : (k, v) ∈ l) (h2 : (k, w) ∈ l) : v = w := by
  induction l with
  | nil => simp at h1
  | cons hd rest ih =>
      obtain ⟨k₀, x⟩ := hd
      simp only [List.map_cons, List.nodup_cons] at hnd
      obtain ⟨hk₀, hrest⟩ := hnd
      rcases List.mem_cons.mp h1 with h1' | h1' <;> rcases List.mem_cons.mp h2 with h2' | h2'
      · injection h1' with ha hb
        injection h2' with hc hd
        rw [hb, hd]
      · injection h1' with ha hb
        exfalso
        apply hk₀
        rw [← ha]
        exact List.mem_map_of_mem _ h2'
      · injection h2' with ha hb
        exfalso
        apply hk₀
        rw [← ha]
        exact List.mem_map_of_mem _ h1'
      · exact ih hrest h1' h2'

theorem toJsonSafe_unfold_obj {h : Heap} {a : Nat} {fs : List (String × JSVal)}
    (hl : h.lookup a = some (.obj fs)) :
    toJsonSafe h (.ref a) = sanWrap 1 (entsGo (sanF h h.objs.length) h fs (insert a ∅)) := by
  simp only [toJsonSafe, sanF]
  rw [if_neg (Finset.not_mem_empty a), hl]

theorem toJsonSafe_unfold_arr {h : Heap} {a : Nat} {es : List JSVal}
    (hl : h.lookup a = some (.arr es)) :
    toJsonSafe h (.ref a) =
      sanWrap 1 (entsGo (sanF h h.objs.length) h (indexFields es) (insert a ∅)) := by
  simp only [toJsonSafe, sanF]
  rw [if_neg (Finset.not_mem_empty a), hl]

theorem toJsonSafe_unfold_hset {h : Heap} {a : Nat} {es : List JSVal}
    (hl : h.lookup a = some (.hset es)) :
    toJsonSafe h (.ref a) =
      sanWrap 2 (entsGo (sanF h h.objs.length) h (indexFields es) (insert a ∅)) := by
  simp only [toJsonSafe, sanF]
  rw [if_neg (Finset.not_mem_empty a), hl]

theorem primLike_not_nullish {v : JSVal} (hp : primLikeB v = true) : nullishB v = false := by
  cases v <;> simp_all [primLikeB, nullishB]

/-- The DAG input of claim C4: one object whose fields a and b both hold
the same second object; no cycle exists anywhere in this heap. -/
def dagHeap : Heap := ⟨[.obj [("a", .ref 1), ("b", .ref 1)], .obj [("c", .num 1)]]⟩

/-- Claim C4 counterexample: sanitizing the acyclic heap whose object has
the same reference under the keys a and b yields the full content at a but
the Circular sentinel at b, although no object contains itself on any
descent path, so the sentinel does not appear only for true cycles. -/
theorem toJsonSafe_marks_shared_object_circular :
    (∃ s', toJsonSafe dagHeap (.ref 0) =
      .ok (.obj [("a", .obj [("c", .num 1)]), ("b", circObj)], s')) ∧
    JOut.obj [("c", .num 1)] ≠ circObj := by
  refine ⟨⟨_, rfl⟩, ?_⟩
  intro hcontra
  simp [circObj] at hcontra

/-- Claim C4 as amended: the seen set of toJsonSafe is scoped to one
top-level call but never shrinks during it, so an object already in the
set is replaced by the Circular sentinel whether it was reached through a
cycle or is merely a repeated occurrence of a shared object; in the DAG
input the second occurrence becomes the sentinel. -/
theorem toJsonSafe_seen_monotone_marks_revisits :
    (∀ (f : Nat) (h : Heap) (a : Nat) (s : Finset Nat), a ∈ s →
      sanF h (f + 1) (.ref a) s = .ok (circObj, s)) ∧
    (∀ (h : Heap) (f : Nat) (v : JSVal) (s s' : Finset Nat) (r : JOut),
      sanF h f v s = .ok (r, s') → s ⊆ s') ∧
    (∃ s', toJsonSafe dagHeap (.ref 0) =
      .ok (.obj [("a", .obj [("c", .num 1)]), ("b", circObj)], s')) := by
  refine ⟨?_, ?_, ⟨_, rfl⟩⟩
  · intro f h a s has
    simp [sanF, has]
  · intro h f v s s' r hok
    exact sanF_mono h f v s r s' hok

theorem toJsonSafe_seen_monotone_marks_revisits_witness :
    sanF ⟨[]⟩ 1 (.ref 0) {0} = .ok (circObj, {0}) :=
  toJsonSafe_seen_monotone_marks_revisits.1 0 ⟨[]⟩ 0 {0} (by decide)

/-- The input of claim C3's counterexample: an object whose s field is a
Set containing a big integer. -/
def setLeakHeap : Heap := ⟨[.obj [("s", .ref 1)], .hset [.bigint 5]]⟩

/-- Claim C3 counterexample: a Set nested as a field value is converted by
Array.from without sanitizing its elements, so a bigint inside it reaches
the output raw and the output is not JSON-native at every depth. -/
theorem toJsonSafe_nested_set_leaks_raw_bigint :
    (∃ s', toJsonSafe setLeakHeap (.ref 0) =
      .ok (.obj [("s", .arr [.raw (.bigint 5)])], s')) ∧
    nativeB (.obj [("s", .arr [.raw (.bigint 5)])]) = false :=
  ⟨⟨_, rfl⟩, rfl⟩

/-- Claim C3 as amended: on heaps without Set or Map objects and whose
arrays hold only object references, strings, numbers and booleans, the
sanitizer succeeds and its output is JSON-native at every depth; elements
of nested Sets and values of nested Map entries are otherwise passed
through raw. -/
theorem toJsonSafe_native_on_guarded_heaps :
    ∀ (h : Heap) (a : Nat), heapClosed h = true → heapGuard h = true →
      a < h.objs.length →
      ∃ r s', toJsonSafe h (.ref a) = .ok (r, s') ∧ nativeB r = true := by
  intro h a hcl hg ha
  obtain ⟨r, s', hok⟩ := toJsonSafe_ok hcl ha
  exact ⟨r, s', hok, sanF_native hg _ _ _ _ _ hok⟩

/-- A guarded, closed heap exercising dates, arrays, bigint fields and
nested objects. -/
def guardedHeap : Heap :=
  ⟨[.obj [("d", .ref 1), ("xs", .ref 2), ("big", .bigint 7), ("o", .ref 3)],
    .date "2020-01-01T00:00:00.000Z",
    .arr [.num 1, .str "x", .ref 3],
    .obj [("n", .num 3)]]⟩

theorem toJsonSafe_native_on_guarded_heaps_witness :
    heapClosed guardedHeap = true ∧ heapGuard guardedHeap = true ∧
    ∃ r s', toJsonSafe guardedHeap (.ref 0) = .ok (r, s') ∧ nativeB r = true :=
  ⟨by decide, by decide,
    toJsonSafe_native_on_guarded_heaps guardedHeap 0 (by decide) (by decide) (by decide)⟩

/-- Claim C6: fields whose value is undefined or null are absent from the
output object entirely, fields holding plain strings, numbers or booleans
are present unchanged, and the example object with a undefined, b null and
c 1 sanitizes to an object holding only c. -/
theorem toJsonSafe_drops_nullish_fields :
    (∀ (h : Heap) (a : Nat) (fs : List (String × JSVal)),
      heapClosed h = true → h.lookup a = some (.obj fs) →
      (fs.map Prod.fst).Nodup →
      ∃ out s', toJsonSafe h (.ref a) = .ok (.obj out, s') ∧
        (∀ k v, (k, v) ∈ fs → nullishB v = true → k ∉ out.map Prod.fst) ∧
        (∀ k v, (k, v) ∈ fs → primLikeB v = true → (k, rawOut v) ∈ out)) ∧
    (∃ s', toJsonSafe ⟨[.obj [("a", .undef), ("b", .jsnull), ("c", .num 1)]]⟩ (.ref 0) =
      .ok (.obj [("c", .num 1)], s')) := by
  constructor
  · intro h a fs hcl hl hnd
    have ha : a < h.objs.length := lookup_lt hl
    obtain ⟨r, s', hok⟩ := toJsonSafe_ok hcl ha
    rw [toJsonSafe_unfold_obj hl] at hok
    obtain ⟨out, hE, hr⟩ := sanWrap_ok hok
    dsimp only at hE hr
    subst hr
    have hf2 := entsGo_shape _ _ _ _ hE
    have hkeys : out.map Prod.fst = (fs.filter (fun kv => ! nullishB kv.2)).map Prod.fst :=
      forall₂_keys hf2 (fun x y hxy => hxy.1)
    refine ⟨out, s', ?_, ?_, ?_⟩
    · rw [toJsonSafe_unfold_obj hl, hE]
      rfl
    · intro k v hkv hnul hkin
      rw [hkeys] at hkin
      obtain ⟨kv', hkv'mem, hkv'fst⟩ := List.mem_map.mp hkin
      obtain ⟨k', v'⟩ := kv'
      obtain ⟨hmemf, hnonnull⟩ := List.mem_filter.mp hkv'mem
      dsimp only at hkv'fst hnonnull
      subst hkv'fst
      have hval : v = v' := keys_nodup_val_eq hnd hkv hmemf
      rw [← hval] at hnonnull
      rw [hnul] at hnonnull
      simp at hnonnull
    · intro k v hkv hprim
      have hfil : (k, v) ∈ fs.filter (fun kv => ! nullishB kv.2) :=
        List.mem_filter.mpr ⟨hkv, by rw [primLike_not_nullish hprim]; rfl⟩
      obtain ⟨kr, hkrmem, hR⟩ := forall₂_mem_right hf2 hfil
      obtain ⟨k₁, r₁⟩ := kr
      obtain ⟨hR1, hR2⟩ := hR
      have hr2 := hR2 hprim
      dsimp only at hR1 hr2
      rw [hR1] at hkrmem
      rw [hr2] at hkrmem
      exact hkrmem
  · exact ⟨_, rfl⟩

theorem toJsonSafe_drops_nullish_fields_witness :
    heapClosed ⟨[.obj [("a", .undef), ("b", .jsnull), ("c", .num 1)]]⟩ = true ∧
    ∃ out s',
      toJsonSafe ⟨[.obj [("a", .undef), ("b", .jsnull), ("c", .num 1)]]⟩ (.ref 0) =
        .ok (.obj out, s') ∧
      (∀ k v, (k, v) ∈ [("a", JSVal.undef), ("b", JSVal.jsnull), ("c", JSVal.num 1)] →
        nullishB v = true → k ∉ out.map Prod.fst) ∧
      (∀ k v, (k, v) ∈ [("a", JSVal.undef), ("b", JSVal.jsnull), ("c", JSVal.num 1)] →
        primLikeB v = true → (k, rawOut v) ∈ out) :=
  ⟨by decide,
    toJsonSafe_drops_nullish_fields.1 ⟨[.obj [("a", .undef), ("b", .jsnull), ("c", .num 1)]]⟩
      0 [("a", .undef), ("b", .jsnull), ("c", .num 1)] (by decide) rfl (by decide)⟩

/-- Claim C7: toJsonSafe terminates on every object of a closed heap,
cyclic graphs included, and on the self-referential object x with
x.self = x it returns an object whose self field equals the Circular
sentinel object. -/
theorem toJsonSafe_terminates_on_cycles :
    (∀ (h : Heap) (a : Nat), heapClosed h = true → a < h.objs.length →
      ∃ r s', toJsonSafe h (.ref a) = .ok (r, s')) ∧
    (∃ s', toJsonSafe ⟨[.obj [("self", .ref 0)]]⟩ (.ref 0) =
      .ok (.obj [("self", circObj)], s')) :=
  ⟨fun h a hcl ha => toJsonSafe_ok hcl ha, ⟨_, rfl⟩⟩

theorem toJsonSafe_terminates_on_cycles_witness :
    heapClosed ⟨[.obj [("self", .ref 0)]]⟩ = true ∧
    ∃ r s', toJsonSafe ⟨[.obj [("self", .ref 0)]]⟩ (.ref 0) = .ok (r, s') :=
  ⟨by decide, toJsonSafe_terminates_on_cycles.1 ⟨[.obj [("self", .ref 0)]]⟩ 0
    (by decide) (by decide)⟩

/-- Claim C10: a top-level array input (and a top-level Set, which goes
through a fresh array) produces a plain object keyed by the decimal
indices of its non-nullish elements, not an array, while an array sitting
as a field value inside an object keeps its array shape. -/
theorem toJsonSafe_top_array_becomes_object :
    (∀ (h : Heap) (a : Nat) (es : List JSVal), heapClosed h = true →
      h.lookup a = some (.arr es) →
      ∃ out s', toJsonSafe h (.ref a) = .ok (.obj out, s') ∧
        out.map Prod.fst = ((indexFields es).filter (fun kv => ! nullishB kv.2)).map Prod.fst) ∧
    (∀ (h : Heap) (a : Nat) (es : List JSVal), heapClosed h = true →
      h.lookup a = some (.hset es) →
      ∃ out s', toJsonSafe h (.ref a) = .ok (.obj out, s') ∧
        out.map Prod.fst = ((indexFields es).filter (fun kv => ! nullishB kv.2)).map Prod.fst) ∧
    (∃ s', toJsonSafe ⟨[.arr [.num 1, .num 2, .num 3]]⟩ (.ref 0) =
      .ok (.obj [("0", .num 1), ("1", .num 2), ("2", .num 3)], s')) ∧
    (∃ s', toJsonSafe ⟨[.obj [("xs", .ref 1)], .arr [.num 7]]⟩ (.ref 0) =
      .ok (.obj [("xs", .arr [.num 7])], s')) := by
  refine ⟨?_, ?_, ⟨_, rfl⟩, ⟨_, rfl⟩⟩
  · intro h a es hcl hl
    have ha : a < h.objs.length := lookup_lt hl
    obtain ⟨r, s', hok⟩ := toJsonSafe_ok hcl ha
    rw [toJsonSafe_unfold_arr hl] at hok
    obtain ⟨out, hE, hr⟩ := sanWrap_ok hok
    dsimp only at hE hr
    subst hr
    refine ⟨out, s', ?_, ?_⟩
    · rw [toJsonSafe_unfold_arr hl, hE]
      rfl
    · exact forall₂_keys (entsGo_shape _ _ _ _ hE) (fun x y hxy => hxy.1)
  · intro h a es hcl hl
    have ha : a < h.objs.length := lookup_lt hl
    obtain ⟨r, s', hok⟩ := toJsonSafe_ok hcl ha
    rw [toJsonSafe_unfold_hset hl] at hok
    obtain ⟨out, hE, hr⟩ := sanWrap_ok hok
    dsimp only at hE hr
    subst hr
    refine ⟨out, s', ?_, ?_⟩
    · rw [toJsonSafe_unfold_hset hl, hE]
      rfl
    · exact forall₂_keys (entsGo_shape _ _ _ _ hE) (fun x y hxy => hxy.1)

theorem toJsonSafe_top_array_becomes_object_witness :
    heapClosed ⟨[.arr [.num 1, .num 2, .num 3]]⟩ = true ∧
    ∃ out s', toJsonSafe ⟨[.arr [.num 1, .num 2, .num 3]]⟩ (.ref 0) = .ok (.obj out, s') ∧
      out.map Prod.fst =
        ((indexFields [JSVal.num 1, JSVal.num 2, JSVal.num 3]).filter
          (fun kv => ! nullishB kv.2)).map Prod.fst :=
  ⟨by decide, toJsonSafe_top_array_becomes_object.1 ⟨[.arr [.num 1, .num 2, .num 3]]⟩ 0
    [JSVal.num 1, JSVal.num 2, JSVal.num 3] (by decide) rfl⟩

/-! ### Codec claims -/

theorem jsStartsWith_ne_empty {sg : String} (hsw : jsStartsWith sg "0x" = true) : sg ≠ "" := by
  intro he
  rw [he] at hsw
  exact absurd hsw (by decide)

theorem validateAuth_ok_id {v pl r : PVal} (hok : validateAuth v pl = .ok r) : r = v := by
  simp only [validateAuth] at hok
  repeat' split at hok
  all_goals
    first
    | exact Except.noConfusion hok
    | (injection hok with h1; exact h1.symm)

/-- Claim C8: validation is a pure gate; whenever validatePaymentPayload
succeeds it returns exactly its input object. -/
theorem validatePaymentPayload_identity :
    ∀ (v r : PVal), validatePaymentPayload v = .ok r → r = v := by
  intro v r hok
  simp only [validatePaymentPayload] at hok
  repeat' split at hok
  all_goals
    first
    | exact Except.noConfusion hok
    | (injection hok with h1; exact h1.symm)
    | exact validateAuth_ok_id hok

/-- A concrete payment accepted by the validator. -/
def validPayment : PVal := .obj [
  ("x402Version", .num 1),
  ("payload", .obj [
    ("type", .str "authorization"),
    ("authorization", .obj [
      ("value", .bigint 5),
      ("validAfter", .bigint 0),
      ("validBefore", .bigint 9),
      ("nonce", .str "n"),
      ("version", .str "1")]),
    ("signature", .str "0xab")])]

theorem validatePaymentPayload_identity_witness :
    validatePaymentPayload validPayment = .ok validPayment ∧ validPayment = validPayment :=
  ⟨rfl, validatePaymentPayload_identity validPayment validPayment rfl⟩

theorem validatePaymentPayload_auth_ok
    {pf plf af : List (String × PVal)} {t : String} {v va vb : Int} {non ver sg : String}
    (hppl : getField pf "payload" = some (.obj plf))
    (htype : getField plf "type" = some (.str t))
    (ht : t = "authorization" ∨ t = "authorizationEip3009")
    (hauth : getField plf "authorization" = some (.obj af))
    (hval : getField af "value" = some (.bigint v))
    (hva : getField af "validAfter" = some (.bigint va))
    (hvb : getField af "validBefore" = some (.bigint vb))
    (hnon : getField af "nonce" = some (.str non))
    (hver : getField af "version" = some (.str ver))
    (hsig : getField plf "signature" = some (.str sg))
    (hsw : jsStartsWith sg "0x" = true) :
    validatePaymentPayload (.obj pf) = .ok (.obj pf) := by
  have hne : sg ≠ "" := jsStartsWith_ne_empty hsw
  rcases ht with ht | ht <;> subst ht <;>
    simp [validatePaymentPayload, validateAuth, getProp, truthy, truthyOpt, typeofIsObject,
      isBigintOpt, isStringOpt, hppl, htype, hauth, hval, hva, hvb, hnon, hver, hsig, hsw, hne]

def AuthConds (plf : List (String × PVal)) : Prop :=
  ∃ af v va vb non ver sg,
    getField plf "authorization" = some (PVal.obj af) ∧
    getField af "value" = some (.bigint v) ∧
    getField af "validAfter" = some (.bigint va) ∧
    getField af "validBefore" = some (.bigint vb) ∧
    getField af "nonce" = some (.str non) ∧
    getField af "version" = some (.str ver) ∧
    getField plf "signature" = some (.str sg) ∧
    jsStartsWith sg "0x" = true

theorem isBigintOpt_true_iff {o : Option PVal} : isBigintOpt o = true ↔ ∃ i, o = some (.bigint i) := by
  cases o with
  | none => simp [isBigintOpt]
  | some x => cases x <;> simp [isBigintOpt]

theorem isStringOpt_true_iff {o : Option PVal} : isStringOpt o = true ↔ ∃ s, o = some (.str s) := by
  cases o with
  | none => simp [isStringOpt]
  | some x => cases x <;> simp [isStringOpt]

theorem validateAuth_ok_imp {w : PVal} {plf : List (String × PVal)}
    (hok : validateAuth w (.obj plf) = .ok w) : AuthConds plf := by
  simp only [validateAuth] at hok
  simp only [show ∀ k, getProp (PVal.obj plf) k = getField plf k from fun k => rfl] at hok
  cases hA : getField plf "authorization" with
  | none => rw [hA] at hok; exact Except.noConfusion hok
  | some a =>
      rw [hA] at hok
      dsimp only at hok
      by_cases h1 : truthy a
      · rw [if_neg (by simp [h1])] at hok
        by_cases h2 : isBigintOpt (getProp a "value") = true
        · obtain ⟨v, hv⟩ := isBigintOpt_true_iff.mp h2
          rw [if_neg (by simp [h2])] at hok
          by_cases h3 : isBigintOpt (getProp a "validAfter") = true
          · obtain ⟨va, hva⟩ := isBigintOpt_true_iff.mp h3
            rw [if_neg (by simp [h3])] at hok
            by_cases h4 : isBigintOpt (getProp a "validBefore") = true
            · obtain ⟨vb, hvb⟩ := isBigintOpt_true_iff.mp h4
              rw [if_neg (by simp [h4])] at hok
              by_cases h5 : isStringOpt (getProp a "nonce") = true
              · obtain ⟨non, hnon⟩ := isStringOpt_true_iff.mp h5
                rw [if_neg (by simp [h5])] at hok
                by_cases h6 : isStringOpt (getProp a "version") = true
                · obtain ⟨ver, hver⟩ := isStringOpt_true_iff.mp h6
                  rw [if_neg (by simp [h6])] at hok
                  cases hS : getField plf "signature" with
                  | none => rw [hS] at hok; exact Except.noConfusion hok
                  | some sg =>
                      rw [hS] at hok
                      dsimp only at hok
                      by_cases h7 : truthy sg
                      · rw [if_neg (by simp [h7])] at hok
                        cases sg with
                        | str s =>
                            dsimp only at hok
                            by_cases h8 : jsStartsWith s "0x" = true
                            · -- the success path: a must be an object for its
                              -- value read to have produced a bigint
                              cases a with
                              | obj af =>
                                  simp only [getProp] at hv hva hvb hnon hver
                                  exact ⟨af, v, va, vb, non, ver, s, hA, hv, hva, hvb,
                                    hnon, hver, hS, h8⟩
                              | arr es =>
                                  simp only [getProp] at hv
                                  rw [show parseIndex? "value" = none from rfl] at hv
                                  simp at hv
                              | null => simp [getProp] at hv
                              | bool b => simp [getProp] at hv
                              | num n => simp [getProp] at hv
                              | str s2 => simp [getProp] at hv
                              | bigint i => simp [getProp] at hv
                            · rw [if_neg h8] at hok
                              exact Except.noConfusion hok
                        | null => exact Except.noConfusion hok
                        | bool b => exact Except.noConfusion hok
                        | num n => exact Except.noConfusion hok
                        | bigint i => exact Except.noConfusion hok
                        | obj fs => exact Except.noConfusion hok
                        | arr es => exact Except.noConfusion hok
                      · rw [if_pos (by simp [h7])] at hok
                        exact Except.noConfusion hok
                · rw [if_pos (by simp [h6])] at hok
                  exact Except.noConfusion hok
              · rw [if_pos (by simp [h5])] at hok
                exact Except.noConfusion hok
            · rw [if_pos (by simp [h4])] at hok
              exact Except.noConfusion hok
          · rw [if_pos (by simp [h3])] at hok
            exact Except.noConfusion hok
        · rw [if_pos (by simp [h2])] at hok
          exact Except.noConfusion hok
      · rw [if_pos (by simp [h1])] at hok
        exact Except.noConfusion hok

/-- The exact circumstances of the TypeError in paymentUtils.js line 56:
every check before the startsWith call passes (truthy authorization with
bigint value, validAfter and validBefore and string nonce and version, a
truthy signature), but the signature is not a string, so it has no
startsWith method. -/
def TypeErrConds (plf : List (String × PVal)) : Prop :=
  ∃ a sg,
    getField plf "authorization" = some a ∧ truthy a = true ∧
    isBigintOpt (getProp a "value") = true ∧
    isBigintOpt (getProp a "validAfter") = true ∧
    isBigintOpt (getProp a "validBefore") = true ∧
    isStringOpt (getProp a "nonce") = true ∧
    isStringOpt (getProp a "version") = true ∧
    getField plf "signature" = some sg ∧ truthy sg = true ∧
    ∀ s, sg ≠ PVal.str s

theorem validateAuth_typeerr_imp {w : PVal} {plf : List (String × PVal)}
    (hok : validateAuth w (.obj plf) =
      .error "TypeError: obj.payload.signature.startsWith is not a function") :
    TypeErrConds plf := by
  simp only [validateAuth] at hok
  simp only [show ∀ k, getProp (PVal.obj plf) k = getField plf k from fun k => rfl] at hok
  cases hA : getField plf "authorization" with
  | none => rw [hA] at hok; simp [authMsg] at hok
  | some a =>
      rw [hA] at hok
      dsimp only at hok
      by_cases h1 : truthy a
      · rw [if_neg (by simp [h1])] at hok
        by_cases h2 : isBigintOpt (getProp a "value") = true
        · rw [if_neg (by simp [h2])] at hok
          by_cases h3 : isBigintOpt (getProp a "validAfter") = true
          · rw [if_neg (by simp [h3])] at hok
            by_cases h4 : isBigintOpt (getProp a "validBefore") = true
            · rw [if_neg (by simp [h4])] at hok
              by_cases h5 : isStringOpt (getProp a "nonce") = true
              · rw [if_neg (by simp [h5])] at hok
                by_cases h6 : isStringOpt (getProp a "version") = true
                · rw [if_neg (by simp [h6])] at hok
                  cases hS : getField plf "signature" with
                  | none => rw [hS] at hok; simp [authMsg] at hok
                  | some sg =>
                      rw [hS] at hok
                      dsimp only at hok
                      by_cases h7 : truthy sg
                      · rw [if_neg (by simp [h7])] at hok
                        cases sg with
                        | str s =>
                            dsimp only at hok
                            split at hok
                            · exact Except.noConfusion hok
                            · simp [authMsg] at hok
                        | null => simp [truthy] at h7
                        | bool b =>
                            exact ⟨a, .bool b, hA, h1, h2, h3, h4, h5, h6, hS, h7,
                              fun s h => PVal.noConfusion h⟩
                        | num n =>
                            exact ⟨a, .num n, hA, h1, h2, h3, h4, h5, h6, hS, h7,
                              fun s h => PVal.noConfusion h⟩
                        | bigint i =>
                            exact ⟨a, .bigint i, hA, h1, h2, h3, h4, h5, h6, hS, h7,
                              fun s h => PVal.noConfusion h⟩
                        | obj fs =>
                            exact ⟨a, .obj fs, hA, h1, h2, h3, h4, h5, h6, hS, h7,
                              fun s h => PVal.noConfusion h⟩
                        | arr es =>
                            exact ⟨a, .arr es, hA, h1, h2, h3, h4, h5, h6, hS, h7,
                              fun s h => PVal.noConfusion h⟩
                      · rw [if_pos (by simp [h7])] at hok
                        simp [authMsg] at hok
                · rw [if_pos (by simp [h6])] at hok
                  simp [authMsg] at hok
              · rw [if_pos (by simp [h5])] at hok
                simp [authMsg] at hok
            · rw [if_pos (by simp [h4])] at hok
              simp [authMsg] at hok
          · rw [if_pos (by simp [h3])] at hok
            simp [authMsg] at hok
        · rw [if_pos (by simp [h2])] at hok
          simp [authMsg] at hok
      · rw [if_pos (by simp [h1])] at hok
        simp [authMsg] at hok

theorem validateAuth_typeerr_of_conds {w : PVal} {plf : List (String × PVal)}
    (h : TypeErrConds plf) :
    validateAuth w (.obj plf) =
      .error "TypeError: obj.payload.signature.startsWith is not a function" := by
  obtain ⟨a, sg, hA, h1, h2, h3, h4, h5, h6, hS, h7, h8⟩ := h
  simp only [validateAuth]
  simp only [show ∀ k, getProp (PVal.obj plf) k = getField plf k from fun k => rfl]
  rw [hA]
  dsimp only
  rw [if_neg (by simp [h1]), if_neg (by simp [h2]), if_neg (by simp [h3]),
    if_neg (by simp [h4]), if_neg (by simp [h5]), if_neg (by simp [h6]), hS]
  dsimp only
  rw [if_neg (by simp [h7])]
  cases sg <;> first | exact absurd rfl (h8 _) | rfl

theorem validateAuth_cases (w pl : PVal) :
    validateAuth w pl = .ok w ∨ validateAuth w pl = .error authMsg ∨
      validateAuth w pl =
        .error "TypeError: obj.payload.signature.startsWith is not a function" := by
  simp only [validateAuth]
  repeat' split
  all_goals first
    | exact Or.inl rfl
    | exact Or.inr (Or.inl rfl)
    | exact Or.inr (Or.inr rfl)

theorem validate_reduces_to_auth {pf plf : List (String × PVal)} {t : String}
    (hppl : getField pf "payload" = some (.obj plf))
    (htype : getField plf "type" = some (.str t))
    (ht : t = "authorization" ∨ t = "authorizationEip3009") :
    validatePaymentPayload (.obj pf) = validateAuth (.obj pf) (.obj plf) := by
  rcases ht with ht | ht <;> subst ht <;>
    simp [validatePaymentPayload, getProp, truthy, truthyOpt, typeofIsObject, hppl, htype]

theorem validate_unknown_type {pf plf : List (String × PVal)} {tv : PVal}
    (hppl : getField pf "payload" = some (.obj plf))
    (htype : getField plf "type" = some tv) (htr : truthy tv = true)
    (hne1 : tv ≠ .str "authorization") (hne2 : tv ≠ .str "authorizationEip3009") :
    validatePaymentPayload (.obj pf) = .error typeMsg := by
  simp only [validatePaymentPayload, getProp, hppl, htype, truthyOpt, htr,
    show truthy (PVal.obj pf) = true from rfl,
    show typeofIsObject (PVal.obj pf) = true from rfl,
    show truthy (PVal.obj plf) = true from rfl,
    show typeofIsObject (PVal.obj plf) = true from rfl]
  simp only [not_true, if_false, Bool.not_true, ite_false]
  try simp
  try (split <;> simp_all)

theorem validate_falsy_type {pf plf : List (String × PVal)}
    (hppl : getField pf "payload" = some (.obj plf))
    (hfal : truthyOpt (getField plf "type") = false) :
    validatePaymentPayload (.obj pf) = .error structMsg := by
  simp [validatePaymentPayload, hppl, hfal,
    show getProp (PVal.obj pf) "payload" = getField pf "payload" from rfl,
    show getProp (PVal.obj plf) "type" = getField plf "type" from rfl,
    show truthy (PVal.obj pf) = true from rfl,
    show typeofIsObject (PVal.obj pf) = true from rfl,
    show truthy (PVal.obj plf) = true from rfl,
    show typeofIsObject (PVal.obj plf) = true from rfl]

/-- Claim C5 as amended: for payloads whose payload.type is one of the two
authorization tags, validation succeeds exactly when the authorization
object is present with bigint value, validAfter and validBefore, string
nonce and version, and a string signature starting with 0x; the TypeError
from the startsWith call occurs exactly when every earlier check passes
and the signature is truthy but not a string; every other failing
combination gives the authorization error.  Any other truthy payload.type
fails with the unknown-payload-type error, but a falsy payload.type
(missing, empty string, zero, false, null) fails with the structure error
instead. -/
theorem validatePaymentPayload_dispatch :
    (∀ (pf plf : List (String × PVal)) (t : String),
      getField pf "payload" = some (PVal.obj plf) →
      getField plf "type" = some (.str t) →
      (t = "authorization" ∨ t = "authorizationEip3009") →
      ((validatePaymentPayload (.obj pf) = .ok (.obj pf) ↔ AuthConds plf) ∧
        (validatePaymentPayload (.obj pf) =
            .error "TypeError: obj.payload.signature.startsWith is not a function" ↔
          TypeErrConds plf) ∧
        (validatePaymentPayload (.obj pf) = .error authMsg ↔
          ¬ AuthConds plf ∧ ¬ TypeErrConds plf) ∧
        (validatePaymentPayload (.obj pf) = .ok (.obj pf) ∨
          validatePaymentPayload (.obj pf) = .error authMsg ∨
          validatePaymentPayload (.obj pf) =
            .error "TypeError: obj.payload.signature.startsWith is not a function"))) ∧
    (∀ (pf plf : List (String × PVal)) (tv : PVal),
      getField pf "payload" = some (PVal.obj plf) →
      getField plf "type" = some tv → truthy tv = true →
      tv ≠ .str "authorization" → tv ≠ .str "authorizationEip3009" →
      validatePaymentPayload (.obj pf) = .error typeMsg) ∧
    (∀ (pf plf : List (String × PVal)),
      getField pf "payload" = some (PVal.obj plf) →
      truthyOpt (getField plf "type") = false →
      validatePaymentPayload (.obj pf) = .error structMsg) := by
  refine ⟨?_, ?_, ?_⟩
  · intro pf plf t hppl htype ht
    have hred := validate_reduces_to_auth hppl htype ht
    have hok_iff : validatePaymentPayload (.obj pf) = .ok (.obj pf) ↔ AuthConds plf := by
      constructor
      · intro hok
        rw [hred] at hok
        exact validateAuth_ok_imp hok
      · rintro ⟨af, v, va, vb, non, ver, sg, hauth, hv, hva, hvb, hnon, hver, hsig, hsw⟩
        exact validatePaymentPayload_auth_ok hppl htype ht hauth hv hva hvb hnon hver hsig hsw
    have hte_iff : validatePaymentPayload (.obj pf) =
        .error "TypeError: obj.payload.signature.startsWith is not a function" ↔
        TypeErrConds plf := by
      rw [hred]
      exact ⟨validateAuth_typeerr_imp, validateAuth_typeerr_of_conds⟩
    have htri : validatePaymentPayload (.obj pf) = .ok (.obj pf) ∨
        validatePaymentPayload (.obj pf) = .error authMsg ∨
        validatePaymentPayload (.obj pf) =
          .error "TypeError: obj.payload.signature.startsWith is not a function" := by
      rw [hred]
      exact validateAuth_cases _ _
    refine ⟨hok_iff, hte_iff, ?_, htri⟩
    constructor
    · intro herr
      constructor
      · intro hc
        have hk := hok_iff.mpr hc
        rw [hk] at herr
        exact Except.noConfusion herr
      · intro hc
        have hk := hte_iff.mpr hc
        rw [hk] at herr
        simp [authMsg] at herr
    · rintro ⟨hna, hnt⟩
      rcases htri with h | h | h
      · exact absurd (hok_iff.mp h) hna
      · exact h
      · exact absurd (hte_iff.mp h) hnt
  · intro pf plf tv hppl htype htr hne1 hne2
    exact validate_unknown_type hppl htype htr hne1 hne2
  · intro pf plf hppl hfal
    exact validate_falsy_type hppl hfal

/-- Claim C5 counterexample: a present but falsy payload.type (the empty
string) is an unrecognized type value, yet validation fails with the
structure error, not the unknown-payload-type error the claim requires. -/
theorem validate_falsy_type_not_unknown :
    validatePaymentPayload (.obj [("payload", .obj [("type", .str "")])]) = .error structMsg ∧
    (Except.error structMsg : Except String PVal) ≠ .error typeMsg :=
  ⟨rfl, by simp [structMsg, typeMsg]⟩

/-- An authorization payload whose signature is a number: every earlier
check passes, so the startsWith call raises the TypeError. -/
def numSigPlf : List (String × PVal) := [
  ("type", .str "authorization"),
  ("authorization", .obj [
    ("value", .bigint 1), ("validAfter", .bigint 0), ("validBefore", .bigint 2),
    ("nonce", .str "n"), ("version", .str "1")]),
  ("signature", .num 7)]

/-- An authorization payload whose string signature lacks the 0x prefix:
the check fails with the authorization error, not the TypeError. -/
def shortSigPlf : List (String × PVal) := [
  ("type", .str "authorization"),
  ("authorization", .obj [
    ("value", .bigint 1), ("validAfter", .bigint 0), ("validBefore", .bigint 2),
    ("nonce", .str "n"), ("version", .str "1")]),
  ("signature", .str "ab")]

theorem validatePaymentPayload_dispatch_witness :
    validatePaymentPayload (.obj [("payload", .obj [("type", .str "foo")])]) = .error typeMsg ∧
    validatePaymentPayload (.obj [("payload", .obj numSigPlf)]) =
      .error "TypeError: obj.payload.signature.startsWith is not a function" ∧
    validatePaymentPayload (.obj [("payload", .obj shortSigPlf)]) = .error authMsg := by
  refine ⟨?_, ?_, ?_⟩
  · exact validatePaymentPayload_dispatch.2.1 [("payload", .obj [("type", .str "foo")])]
      [("type", .str "foo")] (.str "foo") rfl rfl (by decide) (by simp) (by simp)
  · exact (validatePaymentPayload_dispatch.1 [("payload", .obj numSigPlf)] numSigPlf
      "authorization" rfl rfl (Or.inl rfl)).2.1.mpr
      ⟨.obj [("value", .bigint 1), ("validAfter", .bigint 0), ("validBefore", .bigint 2),
        ("nonce", .str "n"), ("version", .str "1")], .num 7,
        rfl, by decide, by decide, by decide, by decide, by decide, by decide, rfl, by decide,
        fun s h => PVal.noConfusion h⟩
  · refine (validatePaymentPayload_dispatch.1 [("payload", .obj shortSigPlf)] shortSigPlf
      "authorization" rfl rfl (Or.inl rfl)).2.2.1.mpr ⟨?_, ?_⟩
    · rintro ⟨af, v, va, vb, non, ver, sg, hA2, hv, hva, hvb, hnon, hver, hsig, hsw⟩
      rw [show getField shortSigPlf "signature" = some (PVal.str "ab") from rfl] at hsig
      injection hsig with h
      injection h with h2
      rw [← h2] at hsw
      exact absurd hsw (by decide)
    · rintro ⟨a, sg, hA2, g1, g2, g3, g4, g5, g6, hS, g7, g8⟩
      rw [show getField shortSigPlf "signature" = some (PVal.str "ab") from rfl] at hS
      injection hS with h
      exact g8 "ab" h.symm

theorem decodePayloadTree_fails_on_bad_value {pf plf af : List (String × PVal)} {t s : String}
    (hppl : getField pf "payload" = some (.obj plf))
    (htype : getField plf "type" = some (.str t))
    (ht : t = "authorization" ∨ t = "authorizationEip3009")
    (hauth : getField plf "authorization" = some (.obj af))
    (hval : getField af "value" = some (.str s))
    (hsbi : stringToBigInt s = none) :
    decodePayloadTree (.obj pf) = .error "SyntaxError: Cannot convert string to a BigInt" := by
  rcases ht with ht | ht <;> subst ht <;>
    simp [decodePayloadTree, memberAccess, accessOpt, getProp, spreadList, isAuthTypeOpt,
      jsBigInt, hppl, htype, hauth, hval, hsbi, exbind_ok, exbind_error]

theorem decodePayloadTree_fails_on_bad_field {pf plf af : List (String × PVal)}
    {t sv sa sb : String}
    (hppl : getField pf "payload" = some (.obj plf))
    (htype : getField plf "type" = some (.str t))
    (ht : t = "authorization" ∨ t = "authorizationEip3009")
    (hauth : getField plf "authorization" = some (.obj af))
    (hv : getField af "value" = some (.str sv))
    (ha : getField af "validAfter" = some (.str sa))
    (hb : getField af "validBefore" = some (.str sb))
    (hbad : stringToBigInt sv = none ∨ stringToBigInt sa = none ∨ stringToBigInt sb = none) :
    decodePayloadTree (.obj pf) = .error "SyntaxError: Cannot convert string to a BigInt" := by
  cases hv1 : stringToBigInt sv with
  | none => exact decodePayloadTree_fails_on_bad_value hppl htype ht hauth hv hv1
  | some v =>
      cases ha1 : stringToBigInt sa with
      | none =>
          rcases ht with ht | ht <;> subst ht <;>
            simp [decodePayloadTree, memberAccess, accessOpt, getProp, spreadList,
              isAuthTypeOpt, jsBigInt, hppl, htype, hauth, hv, ha, hv1, ha1,
              exbind_ok, exbind_error]
      | some a =>
          have hb1 : stringToBigInt sb = none := by
            rcases hbad with h | h | h
            · rw [h] at hv1; exact Option.noConfusion hv1
            · rw [h] at ha1; exact Option.noConfusion ha1
            · exact h
          rcases ht with ht | ht <;> subst ht <;>
            simp [decodePayloadTree, memberAccess, accessOpt, getProp, spreadList,
              isAuthTypeOpt, jsBigInt, hppl, htype, hauth, hv, ha, hb, hv1, ha1, hb1,
              exbind_ok, exbind_error]

/-- The payment tree with an empty-string value, as JSON.parse would
produce it from a wire payload. -/
def emptyValuePayment : PVal := .obj [
  ("payload", .obj [
    ("type", .str "authorization"),
    ("authorization", .obj [
      ("value", .str ""),
      ("validAfter", .str "0"),
      ("validBefore", .str "7"),
      ("nonce", .str "n1"),
      ("version", .str "1")]),
    ("signature", .str "0xab")])]

/-- The same tree with a hex-prefixed value string. -/
def hexValuePayment : PVal := .obj [
  ("payload", .obj [
    ("type", .str "authorization"),
    ("authorization", .obj [
      ("value", .str "0x10"),
      ("validAfter", .str "0"),
      ("validBefore", .str "7"),
      ("nonce", .str "n1"),
      ("version", .str "1")]),
    ("signature", .str "0xab")])]

/-- The same tree with a value string that no BigInt literal accepts. -/
def fracValuePayment : PVal := .obj [
  ("payload", .obj [
    ("type", .str "authorization"),
    ("authorization", .obj [
      ("value", .str "12.5"),
      ("validAfter", .str "0"),
      ("validBefore", .str "7"),
      ("nonce", .str "n1"),
      ("version", .str "1")]),
    ("signature", .str "0xab")])]

/-- Claim C2 counterexample: decoding a payload whose value field is the
empty string succeeds with value 0 (JS BigInt coerces the empty string to
zero), and a hex string 0x10 is accepted as sixteen; neither fails with a
decode error as the claim requires. -/
theorem decodePaymentPayload_accepts_empty_and_hex :
    decodePaymentPayload (fun u : PVal => u) some emptyValuePayment = .ok (.obj [
      ("payload", .obj [
        ("type", .str "authorization"),
        ("authorization", .obj [
          ("value", .bigint 0),
          ("validAfter", .bigint 0),
          ("validBefore", .bigint 7),
          ("nonce", .str "n1"),
          ("version", .str "1")]),
        ("signature", .str "0xab")])]) ∧
    decodePaymentPayload (fun u : PVal => u) some hexValuePayment = .ok (.obj [
      ("payload", .obj [
        ("type", .str "authorization"),
        ("authorization", .obj [
          ("value", .bigint 16),
          ("validAfter", .bigint 0),
          ("validBefore", .bigint 7),
          ("nonce", .str "n1"),
          ("version", .str "1")]),
        ("signature", .str "0xab")])]) :=
  ⟨rfl, rfl⟩

/-- Claim C2 as amended: decodePaymentPayload fails with a decode error
whenever any of the three authorization strings (value, validAfter,
validBefore) lies outside the BigInt string grammar (for example 12.5 or
abc), but JS StringToBigInt also accepts the empty string as zero,
surrounding whitespace, and 0x, 0o and 0b radix prefixes, so such strings
are silently converted rather than rejected. -/
theorem decode_rejects_invalid_bigint_literals :
    (∀ (pf plf af : List (String × PVal)) (t sv sa sb : String),
      getField pf "payload" = some (PVal.obj plf) →
      getField plf "type" = some (.str t) →
      (t = "authorization" ∨ t = "authorizationEip3009") →
      getField plf "authorization" = some (.obj af) →
      getField af "value" = some (.str sv) →
      getField af "validAfter" = some (.str sa) →
      getField af "validBefore" = some (.str sb) →
      (stringToBigInt sv = none ∨ stringToBigInt sa = none ∨ stringToBigInt sb = none) →
      decodePayloadTree (.obj pf) = .error "SyntaxError: Cannot convert string to a BigInt") ∧
    stringToBigInt "" = some 0 ∧
    stringToBigInt " 42 " = some 42 ∧
    stringToBigInt "0x10" = some 16 ∧
    stringToBigInt "12.5" = none ∧
    stringToBigInt "abc" = none ∧
    decodePaymentPayload (fun u : PVal => u) some fracValuePayment =
      .error "SyntaxError: Cannot convert string to a BigInt" := by
  refine ⟨?_, rfl, rfl, rfl, rfl, rfl, rfl⟩
  intro pf plf af t sv sa sb hppl htype ht hauth hv ha hb hbad
  exact decodePayloadTree_fails_on_bad_field hppl htype ht hauth hv ha hb hbad

theorem decode_rejects_invalid_bigint_literals_witness :
    decodePayloadTree (.obj [
      ("payload", .obj [
        ("type", .str "authorization"),
        ("authorization", .obj [
          ("value", .str "1"), ("validAfter", .str "2"), ("validBefore", .str "12.5")]),
        ("signature", .str "0xab")])]) =
      .error "SyntaxError: Cannot convert string to a BigInt" :=
  decode_rejects_invalid_bigint_literals.1
    [("payload", .obj [
      ("type", .str "authorization"),
      ("authorization", .obj [
        ("value", .str "1"), ("validAfter", .str "2"), ("validBefore", .str "12.5")]),
      ("signature", .str "0xab")])]
    [("type", .str "authorization"),
      ("authorization", .obj [
        ("value", .str "1"), ("validAfter", .str "2"), ("validBefore", .str "12.5")]),
      ("signature", .str "0xab")]
    [("value", .str "1"), ("validAfter", .str "2"), ("validBefore", .str "12.5")]
    "authorization" "1" "2" "12.5"
    rfl rfl (Or.inl rfl) rfl rfl rfl rfl (Or.inr (Or.inr rfl))

/-- Claim C9 counterexample: a non-200 response whose JSON body has a
falsy error field (the empty string) keeps the generic failure message;
the error field is present yet is not used as the errorMessage. -/
theorem verify_keeps_generic_message_on_falsy_error :
    verify ⟨402, "Payment Required", some (.obj [("error", .str "")])⟩ =
      .ok (.obj [("isValid", .bool false),
        ("errorMessage", .str "Failed to verify payment: Payment Required")]) ∧
    PVal.str "Failed to verify payment: Payment Required" ≠ PVal.str "" :=
  ⟨rfl, by simp⟩

/-- Claim C9 as amended: every non-200 facilitator response makes verify
return an isValid false record without raising; whenever the body parses
as JSON and its error field is truthy, the errorMessage is exactly that
field, and when no such truthy field exists it is the generic failure
message built from the statusText; a 402 with error insufficient funds
yields exactly that message. -/
theorem verify_non200_returns_isValid_false :
    (∀ (res : FacResponse), res.status ≠ 200 →
      ∃ m, verify res = .ok (.obj [("isValid", .bool false), ("errorMessage", m)]) ∧
        (∀ b e, res.body = some b → getProp b "error" = some e → truthy e = true → m = e) ∧
        ((∃ b e, res.body = some b ∧ getProp b "error" = some e ∧ truthy e = true) ∨
          m = .str ("Failed to verify payment: " ++ res.statusText))) ∧
    verify ⟨402, "Payment Required", some (.obj [("error", .str "insufficient funds")])⟩ =
      .ok (.obj [("isValid", .bool false), ("errorMessage", .str "insufficient funds")]) := by
  constructor
  · intro res hst
    refine ⟨verifyErrMsg res, by simp [verify, hst], ?_, ?_⟩
    · intro b e hb he htr
      simp [verifyErrMsg, hb, he, htr]
    · cases hb : res.body with
      | none =>
          right
          simp [verifyErrMsg, hb, verifyDefaultMsg]
      | some b =>
          cases he : getProp b "error" with
          | none =>
              right
              simp [verifyErrMsg, hb, he, verifyDefaultMsg]
          | some e =>
              by_cases htr : truthy e = true
              · left
                exact ⟨b, e, rfl, he, htr⟩
              · right
                simp [verifyErrMsg, hb, he, verifyDefaultMsg, htr]
  · rfl

theorem verify_non200_returns_isValid_false_witness :
    ∃ m, verify ⟨402, "x", none⟩ =
      .ok (.obj [("isValid", .bool false), ("errorMessage", m)]) ∧
      (∀ b e, (FacResponse.mk 402 "x" none).body = some b →
        getProp b "error" = some e → truthy e = true → m = e) ∧
      ((∃ b e, (FacResponse.mk 402 "x" none).body = some b ∧ getProp b "error" = some e ∧
        truthy e = true) ∨
        m = .str ("Failed to verify payment: " ++ (FacResponse.mk 402 "x" none).statusText)) :=
  verify_non200_returns_isValid_false.1 ⟨402, "x", none⟩ (by decide)

theorem setField_roundtrip3 {af : List (String × PVal)} {v va vb : Int} {sv sva svb : PVal}
    (hval : getField af "value" = some (.bigint v))
    (hva : getField af "validAfter" = some (.bigint va))
    (hvb : getField af "validBefore" = some (.bigint vb)) :
    setField (setField (setField
      (setField (setField (setField af "value" sv) "validAfter" sva) "validBefore" svb)
      "value" (.bigint v)) "validAfter" (.bigint va)) "validBefore" (.bigint vb) = af := by
  have pv1 : (getField (setField af "value" sv) "value").isSome := by
    rw [getField_setField_self]; rfl
  have pv2 : (getField (setField (setField af "value" sv) "validAfter" sva) "value").isSome :=
    getField_isSome_setField _ _ _ _ pv1
  have pva1 : (getField (setField af "value" sv) "validAfter").isSome := by
    rw [getField_setField_ne _ _ _ _ (by decide), hva]; rfl
  have pva2 :
      (getField (setField (setField af "value" sv) "validAfter" sva) "validAfter").isSome := by
    rw [getField_setField_self]; rfl
  have step1 :
      setField (setField (setField (setField af "value" sv) "validAfter" sva)
        "validBefore" svb) "value" (.bigint v) =
      setField (setField af "validAfter" sva) "validBefore" svb := by
    rw [← setField_comm _ _ _ _ _ (by decide) pv2]
    rw [← setField_comm _ _ _ _ _ (by decide) pv1]
    rw [setField_setField_same, setField_getField_self _ _ _ hval]
  have step2 :
      setField (setField (setField af "validAfter" sva) "validBefore" svb)
        "validAfter" (.bigint va) =
      setField af "validBefore" svb := by
    have pva3 : (getField (setField af "validAfter" sva) "validAfter").isSome := by
      rw [getField_setField_self]; rfl
    rw [← setField_comm _ _ _ _ _ (by decide) pva3]
    rw [setField_setField_same, setField_getField_self _ _ _ hva]
  rw [step1, step2, setField_setField_same, setField_getField_self _ _ _ hvb]

/-- A well-formed authorization payment as the claim constrains it: an
object tree with an authorization-tagged payload, bigint value,
validAfter and validBefore of arbitrary size, string nonce and version,
and a signature starting with 0x. -/
def AuthShape (p : PVal) : Prop :=
  ∃ pf plf af t v va vb non ver sg,
    p = PVal.obj pf ∧
    getField pf "payload" = some (PVal.obj plf) ∧
    getField plf "type" = some (.str t) ∧
    (t = "authorization" ∨ t = "authorizationEip3009") ∧
    getField plf "authorization" = some (.obj af) ∧
    getField af "value" = some (.bigint v) ∧ 0 ≤ v ∧
    getField af "validAfter" = some (.bigint va) ∧ 0 ≤ va ∧
    getField af "validBefore" = some (.bigint vb) ∧ 0 ≤ vb ∧
    getField af "nonce" = some (.str non) ∧
    getField af "version" = some (.str ver) ∧
    getField plf "signature" = some (.str sg) ∧
    jsStartsWith sg "0x" = true

/-- Claim C1: for every well-formed authorization payload, decoding the
encoding reproduces the payload exactly, field for field, the three
numeric fields compared by integer value; the base64 primitive and the
JSON serializer are taken as parameters satisfying their round-trip
contracts (the base64 assumption is the claim's own, JSON.parse inverts
JSON.stringify on bigint-free trees). -/
theorem encode_decode_roundtrip {T U : Type}
    (ser : PVal → T) (de : T → Option PVal) (enc : T → U) (dec : U → T)
    (hb : ∀ x, dec (enc x) = x)
    (hj : ∀ w, jsonPure w = true → de (ser w) = some w)
    (p : PVal) (hwf : AuthShape p)
    (hpure : ∀ w, encodePayloadTree p = .ok w → jsonPure w = true) :
    ∃ u, encodePaymentPayload ser enc p = .ok u ∧
      decodePaymentPayload dec de u = .ok p := by
  obtain ⟨pf, plf, af, t, v, va, vb, non, ver, sg, hp, hppl, htype, ht, hauth,
    hval, hv0, hva, hva0, hvb, hvb0, hnon, hver, hsig, hsw⟩ := hwf
  subst hp
  have henc : encodePayloadTree (.obj pf) = .ok (.obj (setField pf "payload" (.obj
      (setField plf "authorization" (.obj (setField (setField (setField af "value"
        (.str (intToDec v))) "validAfter" (.str (intToDec va))) "validBefore"
        (.str (intToDec vb)))))))) := by
    rcases ht with ht' | ht' <;> subst ht' <;>
      simp [encodePayloadTree, memberAccess, accessOpt, getProp, spreadList,
        isAuthTypeOpt, jsToStringOpt, jsToString, hppl, htype, hauth, hval, hva, hvb,
        exbind_ok, exbind_error]
  set A1 := setField (setField (setField af "value" (.str (intToDec v)))
    "validAfter" (.str (intToDec va))) "validBefore" (.str (intToDec vb)) with hA1
  set PL1 := setField plf "authorization" (.obj A1) with hPL1
  have f1 : getField (setField pf "payload" (.obj PL1)) "payload" = some (.obj PL1) :=
    getField_setField_self _ _ _
  have f2 : getField PL1 "type" = some (.str t) := by
    rw [hPL1, getField_setField_ne _ _ _ _ (by decide)]
    exact htype
  have f3 : getField PL1 "authorization" = some (.obj A1) := by
    rw [hPL1]
    exact getField_setField_self _ _ _
  have f4 : getField A1 "value" = some (.str (intToDec v)) := by
    rw [hA1, getField_setField_ne _ _ _ _ (by decide),
      getField_setField_ne _ _ _ _ (by decide)]
    exact getField_setField_self _ _ _
  have f5 : getField A1 "validAfter" = some (.str (intToDec va)) := by
    rw [hA1, getField_setField_ne _ _ _ _ (by decide)]
    exact getField_setField_self _ _ _
  have f6 : getField A1 "validBefore" = some (.str (intToDec vb)) := by
    rw [hA1]
    exact getField_setField_self _ _ _
  have s1 : stringToBigInt (intToDec v) = some v := stringToBigInt_intToDec hv0
  have s2 : stringToBigInt (intToDec va) = some va := stringToBigInt_intToDec hva0
  have s3 : stringToBigInt (intToDec vb) = some vb := stringToBigInt_intToDec hvb0
  have hdec : decodePayloadTree (.obj (setField pf "payload" (.obj PL1))) =
      validatePaymentPayload (.obj (setField (setField pf "payload" (.obj PL1)) "payload"
        (.obj (setField PL1 "authorization" (.obj (setField (setField (setField A1
          "value" (.bigint v)) "validAfter" (.bigint va)) "validBefore" (.bigint vb))))))) := by
    rcases ht with ht' | ht' <;> subst ht' <;>
      simp [decodePayloadTree, memberAccess, accessOpt, getProp, spreadList,
        isAuthTypeOpt, jsBigInt, f1, f2, f3, f4, f5, f6, s1, s2, s3,
        exbind_ok, exbind_error]
  have hA2 : setField (setField (setField A1 "value" (.bigint v)) "validAfter" (.bigint va))
      "validBefore" (.bigint vb) = af := by
    rw [hA1]
    exact setField_roundtrip3 hval hva hvb
  have hPL2 : setField PL1 "authorization" (.obj af) = plf := by
    rw [hPL1, setField_setField_same]
    exact setField_getField_self _ _ _ hauth
  refine ⟨enc (ser (.obj (setField pf "payload" (.obj PL1)))), ?_, ?_⟩
  · rw [encodePaymentPayload, henc]
    rfl
  · rw [decodePaymentPayload.eq_def, hb, hj _ (hpure _ henc)]
    dsimp only
    rw [hdec, hA2, hPL2, setField_setField_same,
      setField_getField_self _ _ _ hppl]
    exact validatePaymentPayload_auth_ok hppl htype ht hauth hval hva hvb hnon hver hsig hsw

/-- A concrete well-formed payment whose value exceeds 64-bit range. -/
def roundtripPayment : PVal := .obj [
  ("x402Version", .num 1),
  ("scheme", .str "exact"),
  ("payload", .obj [
    ("type", .str "authorization"),
    ("authorization", .obj [
      ("from", .str "0xabc"),
      ("value", .bigint (2 ^ 200)),
      ("validAfter", .bigint 0),
      ("validBefore", .bigint 99999),
      ("nonce", .str "n1"),
      ("version", .str "1")]),
    ("signature", .str "0xdeadbeef")])]

set_option maxRecDepth 8000 in
theorem encode_decode_roundtrip_witness :
    ∃ u, encodePaymentPayload (fun w : PVal => w) (fun w : PVal => w) roundtripPayment = .ok u ∧
      decodePaymentPayload (fun w : PVal => w) some u = .ok roundtripPayment :=
  encode_decode_roundtrip (fun w : PVal => w) some (fun w : PVal => w) (fun w : PVal => w)
    (fun _ => rfl) (fun _ _ => rfl) roundtripPayment
    ⟨_, _, _, "authorization", 2 ^ 200, 0, 99999, "n1", "1", "0xdeadbeef",
      rfl, rfl, rfl, Or.inl rfl, rfl, rfl, by decide, rfl, by decide, rfl, by decide,
      rfl, rfl, rfl, by decide⟩
    (fun w hw => by
      have h2 : (encodePayloadTree roundtripPayment).toOption.map jsonPure = some true := rfl
      rw [hw] at h2
      simp only [Except.toOption, Option.map] at h2
      injection h2)
